import Mathlib

/-!
Verification of the Knugget centralised server (Express + Prisma backend).

The development shallowly embeds the TypeScript sources:
 - `src/services/generateSummary.ts` (Gemini prompt + free-text response parsing),
 - `src/routes/summary.ts` (both revisions of the generate / save / get / delete
   handlers, including the flattened text-blob encoding of stored summaries),
 - `src/middleware/authMiddleware.ts` (bearer-token gate and user-directory sync).

Strings are embedded as `List Char`.  JavaScript string operations used by the
sources (`trim`, `split('-')`, `startsWith`, truthiness `a || b`, and the regex
searches, which are all first-occurrence literal-marker searches) are given
executable definitions below.  The database is embedded as in-memory lists of
user and summary records; the `try/catch` blocks of the generate handler that
swallow store failures are made explicit with a record of fault flags.
-/

/-- Strings of the embedded program: JavaScript strings as lists of characters. -/
abbrev Str := List Char

/-- The characters stripped by `String.prototype.trim`: ECMAScript WhiteSpace
(TAB, VT, FF, SP, NBSP, ZWNBSP and the Unicode space separators) together with
the LineTerminators (LF, CR, LS, PS). -/
def isWS (c : Char) : Bool :=
  c.toNat = 0x9 || c.toNat = 0xa || c.toNat = 0xb || c.toNat = 0xc ||
  c.toNat = 0xd || c.toNat = 0x20 || c.toNat = 0xa0 || c.toNat = 0x1680 ||
  (0x2000 ≤ c.toNat && c.toNat ≤ 0x200a) ||
  c.toNat = 0x2028 || c.toNat = 0x2029 || c.toNat = 0x202f ||
  c.toNat = 0x205f || c.toNat = 0x3000 || c.toNat = 0xfeff

/-- The ECMAScript LineTerminator characters, which the regex `.` does not
match: LF, CR, LS, PS. -/
def isLineTerm (c : Char) : Bool :=
  c.toNat = 0xa || c.toNat = 0xd || c.toNat = 0x2028 || c.toNat = 0x2029

/-- Drop leading whitespace. -/
def trimLeft (s : Str) : Str := s.dropWhile isWS

/-- Drop trailing whitespace. -/
def trimRight (s : Str) : Str := (s.reverse.dropWhile isWS).reverse

/-- JavaScript `s.trim()`. -/
def trim (s : Str) : Str := trimRight (trimLeft s)

/-- JavaScript `a || b` on strings: the empty string is falsy. -/
def jsOr (a b : Str) : Str := if a = [] then b else a

/-- First-occurrence search for a literal pattern, the semantics of an
unanchored JavaScript regex whose pattern is the literal `pat`.  Characters are
compared after normalisation by `norm` (`id` for a case-sensitive regex,
`Char.toLower` for an `/i` regex whose `pat` is given lowercased).  On success
returns `(pre, post)` where the subject is `pre ++ occurrence ++ post` and no
occurrence starts inside `pre`. -/
def breakOnBy (norm : Char → Char) (pat : Str) : Str → Option (Str × Str)
  | [] => none
  | c :: t =>
    if pat.isPrefixOf ((c :: t).map norm) then some ([], (c :: t).drop pat.length)
    else (breakOnBy norm pat t).map fun pq => (c :: pq.1, pq.2)

/-! ### Lemmas about `trim` -/

theorem trimLeft_cons_of_ws {c : Char} (hc : isWS c) (s : Str) :
    trimLeft (c :: s) = trimLeft s := by
  simp [trimLeft, List.dropWhile_cons, hc]

theorem trimLeft_length_le (s : Str) : (trimLeft s).length ≤ s.length :=
  (List.dropWhile_sublist _).length_le

theorem trimRight_length_le (s : Str) : (trimRight s).length ≤ s.length := by
  have h : (s.reverse.dropWhile isWS).length ≤ s.reverse.length :=
    (List.dropWhile_sublist _).length_le
  simpa [trimRight] using h

theorem trimLeft_eq_self_of_length (s : Str) (h : (trimLeft s).length = s.length) :
    trimLeft s = s := by
  have hs : trimLeft s <:+ s := List.dropWhile_suffix isWS
  obtain ⟨a, ha⟩ := hs
  have hlen := congrArg List.length ha
  simp at hlen
  have : a = [] := by
    have : a.length = 0 := by omega
    exact List.length_eq_zero.mp this
  simpa [this] using ha

theorem trimRight_eq_self_of_length (s : Str) (h : (trimRight s).length = s.length) :
    trimRight s = s := by
  have h2 : (trimLeft s.reverse).length = s.reverse.length := by
    simpa [trimRight, trimLeft] using h
  have h3 := trimLeft_eq_self_of_length s.reverse h2
  have h4 : trimRight s = (trimLeft s.reverse).reverse := rfl
  rw [h4, h3, List.reverse_reverse]

/-- A string equal to its own trim is stable under both one-sided trims. -/
theorem trim_eq_self_parts {s : Str} (h : trim s = s) :
    trimLeft s = s ∧ trimRight s = s := by
  have h1 : s.length ≤ (trimLeft s).length := by
    have := trimRight_length_le (trimLeft s)
    calc s.length = (trim s).length := by rw [h]
    _ ≤ (trimLeft s).length := this
  have h2 : trimLeft s = s :=
    trimLeft_eq_self_of_length s (le_antisymm (trimLeft_length_le s) h1)
  refine ⟨h2, ?_⟩
  have : trim s = trimRight s := by rw [trim, h2]
  rw [← this, h]

/-- The head of a nonempty left-trim-stable string is not whitespace. -/
theorem not_ws_head_of_trimLeft {c : Char} {t : Str} (h : trimLeft (c :: t) = c :: t) :
    ¬ isWS c := by
  intro hc
  rw [trimLeft_cons_of_ws hc] at h
  have := congrArg List.length h
  have hle := trimLeft_length_le t
  simp [trimLeft] at this hle
  omega

/-- The last character of a nonempty right-trim-stable string is not whitespace. -/
theorem not_ws_last_of_trimRight {c : Char} {t : Str} (h : trimRight (t ++ [c]) = t ++ [c]) :
    ¬ isWS c := by
  intro hc
  have h1 : trimRight (t ++ [c]) = ((c :: t.reverse).dropWhile isWS).reverse := by
    simp [trimRight]
  rw [List.dropWhile_cons, if_pos hc] at h1
  rw [h1] at h
  have := congrArg List.length h
  have hle : (t.reverse.dropWhile isWS).length ≤ t.reverse.length :=
    (List.dropWhile_sublist _).length_le
  simp at this hle
  omega

theorem trimLeft_append_of_head {c : Char} (hc : ¬ isWS c) (s r : Str) :
    trimLeft (c :: s ++ r) = c :: s ++ r := by
  simp [trimLeft, List.dropWhile_cons, hc]

/-- `trim` of a trim-stable nonempty string with a space prepended and a
newline appended: the bullet segment ` p\n` trims back to `p`. -/
theorem trim_bullet_mid {p : Str} (hp : trim p = p) (hne : p ≠ []) :
    trim (' ' :: p ++ ['\n']) = p := by
  obtain ⟨hL, hR⟩ := trim_eq_self_parts hp
  obtain ⟨c, t, hct⟩ : ∃ c t, p = c :: t := by
    cases p with
    | nil => exact absurd rfl hne
    | cons c t => exact ⟨c, t, rfl⟩
  have hc : ¬ isWS c := not_ws_head_of_trimLeft (hct ▸ hL)
  have h1 : trimLeft (' ' :: p ++ ['\n']) = p ++ ['\n'] := by
    rw [show (' ' :: p ++ ['\n']) = ' ' :: (p ++ ['\n']) by simp,
      trimLeft_cons_of_ws (by decide)]
    rw [hct]
    exact trimLeft_append_of_head hc t ['\n']
  rw [trim, h1]
  obtain ⟨t0, b, ht0⟩ : ∃ t0 b, p = t0 ++ [b] := by
    rcases List.eq_nil_or_concat p with h | ⟨t0, b, h⟩
    · exact absurd h hne
    · exact ⟨t0, b, by simpa using h⟩
  have hb : ¬ isWS b := not_ws_last_of_trimRight (ht0 ▸ hR)
  have h2 : (p ++ ['\n']).reverse = '\n' :: b :: t0.reverse := by
    rw [ht0]; simp
  rw [trimRight, h2, List.dropWhile_cons, if_pos (by decide), List.dropWhile_cons,
    if_neg (by simpa using hb)]
  rw [ht0]; simp

/-- `trim` of a trim-stable nonempty string with a space prepended: the final
bullet segment ` p` trims back to `p`. -/
theorem trim_bullet_last {p : Str} (hp : trim p = p) (hne : p ≠ []) :
    trim (' ' :: p) = p := by
  obtain ⟨hL, hR⟩ := trim_eq_self_parts hp
  obtain ⟨c, t, hct⟩ : ∃ c t, p = c :: t := by
    cases p with
    | nil => exact absurd rfl hne
    | cons c t => exact ⟨c, t, rfl⟩
  have hc : ¬ isWS c := not_ws_head_of_trimLeft (hct ▸ hL)
  have h1 : trimLeft (' ' :: p) = p := by
    rw [show (' ' :: p) = ' ' :: (p ++ []) by simp, trimLeft_cons_of_ws (by decide)]
    rw [hct]
    simpa using trimLeft_append_of_head hc t []
  rw [trim, h1, hR]

/-- `trim` eats a leading newline in front of a trim-stable string. -/
theorem trim_newline_cons {f : Str} (hf : trim f = f) : trim ('\n' :: f) = f := by
  obtain ⟨hL, hR⟩ := trim_eq_self_parts hf
  rw [trim, trimLeft_cons_of_ws (by decide), hL, hR]

theorem trim_nil : trim [] = [] := rfl

/-! ### Lemmas about `breakOnBy` -/

theorem prefix_append_cases {pat x y : Str} (h : pat <+: x ++ y) :
    pat <+: x ∨ ∃ r, pat = x ++ r ∧ r <+: y := by
  obtain ⟨u, hu⟩ := h
  rcases List.append_eq_append_iff.mp hu with ⟨w, hw1, hw2⟩ | ⟨w, hw1, hw2⟩
  · exact Or.inl ⟨w, hw1.symm⟩
  · exact Or.inr ⟨w, hw1, ⟨u, hw2.symm⟩⟩

theorem head_mem_of_prefix_cons {pat : Str} {d : Char} {rest : Str}
    (h : pat <+: d :: rest) (hne : pat ≠ []) : d ∈ pat := by
  obtain ⟨u, hu⟩ := h
  cases pat with
  | nil => exact absurd rfl hne
  | cons p0 pt =>
    have : p0 = d := by
      have := congrArg List.head? hu
      simpa using this
    simp [this]

theorem infix_of_suffix_decomp {pat w T : Str} (norm : Char → Char)
    (hsuf : w <:+ T) (h : pat <+: w.map norm) : pat <:+: T.map norm :=
  h.isInfix.trans (hsuf.map norm).isInfix

theorem breakOnBy_eq_none_of_not_infix {norm : Char → Char} {pat s : Str}
    (h : ¬ pat <:+: s.map norm) : breakOnBy norm pat s = none := by
  induction s with
  | nil => rfl
  | cons c t ih =>
    rw [breakOnBy]
    have h1 : ¬ pat.isPrefixOf ((c :: t).map norm) := by
      intro hp
      exact h (List.isPrefixOf_iff_prefix.mp hp).isInfix
    rw [if_neg h1]
    have h2 : breakOnBy norm pat t = none := by
      apply ih
      intro hi
      apply h
      rw [List.map_cons]
      exact hi.trans (List.suffix_cons _ _).isInfix
    rw [h2]
    rfl

theorem breakOnBy_append {norm : Char → Char} {pat A B : Str}
    (h : ∀ a1 a2, A = a1 ++ a2 → a2 ≠ [] → ¬ pat <+: (a2 ++ B).map norm) :
    breakOnBy norm pat (A ++ B) =
      (breakOnBy norm pat B).map fun pq => (A ++ pq.1, pq.2) := by
  induction A with
  | nil =>
    simp only [List.nil_append]
    cases hb : breakOnBy norm pat B with
    | none => rfl
    | some pq => simp
  | cons c t ih =>
    rw [List.cons_append, breakOnBy]
    have h1 : ¬ pat.isPrefixOf ((c :: (t ++ B)).map norm) := by
      intro hp
      exact h [] (c :: t) rfl (by simp)
        (by simpa using List.isPrefixOf_iff_prefix.mp hp)
    rw [if_neg h1]
    have h2 := ih fun a1 a2 he hne => h (c :: a1) a2 (by rw [he]; rfl) hne
    rw [h2]
    cases hb : breakOnBy norm pat B with
    | none => rfl
    | some pq => rfl

theorem breakOnBy_hit {norm : Char → Char} {pat m q : Str}
    (hm : m.map norm = pat) (hne : m ≠ []) :
    breakOnBy norm pat (m ++ q) = some ([], q) := by
  cases m with
  | nil => exact absurd rfl hne
  | cons c t =>
    rw [List.cons_append, breakOnBy]
    have h1 : pat.isPrefixOf ((c :: (t ++ q)).map norm) := by
      apply List.isPrefixOf_iff_prefix.mpr
      refine ⟨(t ++ q).drop t.length |>.map norm, ?_⟩
      rw [← hm]
      simp
    rw [if_pos h1]
    have h2 : pat.length = t.length + 1 := by
      rw [← hm]; simp
    simp [h2]

theorem breakOnBy_locate {norm : Char → Char} {pat A m q : Str}
    (h : ∀ a1 a2, A = a1 ++ a2 → a2 ≠ [] → ¬ pat <+: (a2 ++ (m ++ q)).map norm)
    (hm : m.map norm = pat) (hne : m ≠ []) :
    breakOnBy norm pat (A ++ m ++ q) = some (A, q) := by
  rw [List.append_assoc, breakOnBy_append h, breakOnBy_hit hm hne]
  simp

/-- No occurrence of a newline-free pattern can start inside `T ++ "\n\n"` when
`T` (itself arbitrary) does not contain the pattern after normalisation: any
such occurrence would either lie inside `T` or cover one of the two separator
newlines. -/
theorem noEarly_of_sep {norm : Char → Char} {pat T : Str} (B : Str)
    (hn : norm '\n' = '\n') (hnl : '\n' ∉ pat) (hT : ¬ pat <:+: T.map norm) :
    ∀ a1 a2, T ++ ['\n', '\n'] = a1 ++ a2 → a2 ≠ [] →
      ¬ pat <+: (a2 ++ B).map norm := by
  intro a1 a2 he hne hp
  have hpatne : pat ≠ [] := by
    intro h0
    exact hT (h0 ▸ List.nil_infix)
  rcases List.append_eq_append_iff.mp he with ⟨w, hw1, hw2⟩ | ⟨w, hw1, hw2⟩
  · -- a1 = T ++ w and a2 is a nonempty suffix of the two separator newlines
    have ha2 : a2 = ['\n', '\n'] ∨ a2 = ['\n'] := by
      cases w with
      | nil => left; simpa using hw2.symm
      | cons w0 wt =>
        cases wt with
        | nil =>
          right
          cases a2 with
          | nil => exact absurd rfl hne
          | cons b bt =>
            have h4 := hw2
            simp at h4
            obtain ⟨h5, h6, h7⟩ := h4
            simp [h7, ← h6]
        | cons w1 wt2 =>
          exfalso
          have hlen := congrArg List.length hw2
          have hpos : 0 < a2.length := List.length_pos.mpr hne
          rw [List.length_append] at hlen
          simp only [List.length_cons, List.length_nil] at hlen
          omega
    have hd : '\n' ∈ pat := by
      rcases ha2 with h2 | h2 <;> rw [h2] at hp
      · exact head_mem_of_prefix_cons
          (show pat <+: '\n' :: (('\n' :: B).map norm) by simpa [hn] using hp) hpatne
      · exact head_mem_of_prefix_cons
          (show pat <+: '\n' :: (B.map norm) by simpa [hn] using hp) hpatne
    exact hnl hd
  · -- a2 = w ++ "\n\n" with w a suffix of T
    have hwsuf : w <:+ T := ⟨a1, hw1.symm⟩
    rw [hw2] at hp
    rw [show (w ++ ['\n', '\n'] ++ B) = w ++ (['\n', '\n'] ++ B) by simp,
      List.map_append] at hp
    rcases prefix_append_cases hp with hc | ⟨r, hr1, hr2⟩
    · exact hT (infix_of_suffix_decomp norm hwsuf hc)
    · cases r with
      | nil =>
        simp at hr1
        exact hT (infix_of_suffix_decomp norm hwsuf (hr1 ▸ List.prefix_refl _))
      | cons d r2 =>
        have hd : d = '\n' := by
          obtain ⟨u, hu⟩ := hr2
          have h3 := congrArg List.head? hu
          simpa [hn] using h3
        apply hnl
        rw [hr1, hd]
        simp

/-! ### The flattened storage encoding (src/routes/summary.ts lines 116-118) -/

/-- The literal `Key Points:` marker of the storage format and of the regexes
`/Key Points:([\s\S]*?)(?=\n\n|$)/i` and `/(?:Key Points:[\s\S]*?\n\n)([\s\S]*?)$/`. -/
def kpMarker : Str := "Key Points:".toList

/-- Lowercased marker compared by the case-insensitive regexes. -/
def kpMarkerCI : Str := kpMarker.map Char.toLower

/-- Lowercased `SUMMARY:` marker of `/SUMMARY:([\s\S]*?)$/i` in generateSummary. -/
def smMarkerCI : Str := "SUMMARY:".toList.map Char.toLower

/-- The blank-line separator `\n\n` used by the storage format and regexes. -/
abbrev nnSep : Str := ['\n', '\n']

/-- `summary.keyPoints.map((point) => `- ${point}`).join("\n")`. -/
def bulletJoin (kps : List Str) : Str :=
  List.intercalate "\n".toList (kps.map fun p => "- ".toList ++ p)

/-- The stored text blob
`${title}\n\nKey Points:\n${keyPoints.map(`- ${p}`).join("\n")}\n\n${fullSummary}`
(summary.ts lines 116-118 and 255-257). -/
def flatten (t : Str) (kps : List Str) (f : Str) : Str :=
  t ++ "\n\nKey Points:\n".toList ++ bulletJoin kps ++ "\n\n".toList ++ f

theorem bulletJoin_nil : bulletJoin [] = [] := rfl

theorem bulletJoin_single (p : Str) : bulletJoin [p] = '-' :: ' ' :: p := by
  simp [bulletJoin, List.intercalate, List.intersperse]

theorem bulletJoin_cons₂ (p q : Str) (r : List Str) :
    bulletJoin (p :: q :: r) = '-' :: ' ' :: p ++ '\n' :: bulletJoin (q :: r) := by
  simp [bulletJoin, List.intercalate, List.intersperse]

/-- Decomposition of a two-character infix of an append: it lies in the left
part, in the right part, or straddles the boundary. -/
theorem pair_infix_append {a b : Char} {x y : Str} (h : [a, b] <:+: x ++ y) :
    [a, b] <:+: x ∨ [a, b] <:+: y ∨
      ((∃ x0, x = x0 ++ [a]) ∧ ∃ y0, y = b :: y0) := by
  induction x with
  | nil => exact Or.inr (Or.inl (by simpa using h))
  | cons c t ih =>
    rw [List.cons_append] at h
    rcases List.infix_cons_iff.mp h with hpre | hinf
    · obtain ⟨u, hu⟩ := hpre
      simp only [List.cons_append, List.cons.injEq] at hu
      obtain ⟨hac, hu2⟩ := hu
      cases t with
      | nil =>
        right; right
        refine ⟨⟨[], by simp [hac]⟩, ⟨u, ?_⟩⟩
        simpa using hu2.symm
      | cons d t2 =>
        left
        simp only [List.cons_append, List.cons.injEq] at hu2
        obtain ⟨hbd, _⟩ := hu2
        exact ⟨[], t2, by simp [hac, hbd]⟩
    · rcases ih hinf with h1 | h2 | h3
      · exact Or.inl (h1.trans (List.infix_cons_iff.mpr (Or.inr (List.infix_refl t))))
      · exact Or.inr (Or.inl h2)
      · obtain ⟨⟨x0, hx0⟩, hy⟩ := h3
        exact Or.inr (Or.inr ⟨⟨c :: x0, by simp [hx0]⟩, hy⟩)

theorem pair_prefix_cons {a b c : Char} {l : Str} (h : [a, b] <+: c :: l) :
    a = c ∧ ∃ l2, l = b :: l2 := by
  obtain ⟨u, hu⟩ := h
  simp only [List.cons_append, List.cons.injEq] at hu
  exact ⟨hu.1, ⟨u, hu.2.symm⟩⟩

theorem no_nn_in_bullet {p : Str} (hnn : ¬ nnSep <:+: p) :
    ¬ nnSep <:+: ('-' :: ' ' :: p) := by
  intro h
  rcases List.infix_cons_iff.mp h with hpre | h2
  · obtain ⟨h1, _⟩ := pair_prefix_cons (show ['\n', '\n'] <+: '-' :: (' ' :: p) from hpre)
    exact absurd h1 (by decide)
  · rcases List.infix_cons_iff.mp h2 with hpre | h3
    · obtain ⟨h1, _⟩ := pair_prefix_cons (show ['\n', '\n'] <+: ' ' :: p from hpre)
      exact absurd h1 (by decide)
    · exact hnn h3

theorem no_nn_nl_bullet {p : Str} (hnn : ¬ nnSep <:+: p) :
    ¬ nnSep <:+: ('\n' :: '-' :: ' ' :: p) := by
  intro h
  rcases List.infix_cons_iff.mp h with hpre | h2
  · obtain ⟨_, l2, hl2⟩ :=
      pair_prefix_cons (show ['\n', '\n'] <+: '\n' :: ('-' :: ' ' :: p) from hpre)
    have := congrArg List.head? hl2
    simp at this
  · exact no_nn_in_bullet hnn h2

/-- The key-points region `'\n' :: bulletJoin P` contains no blank line when
every point is trim-stable, nonempty, and blank-line free. -/
theorem no_nn_infix_bullets {P : List Str}
    (hP : ∀ p ∈ P, trim p = p ∧ p ≠ [] ∧ ¬ nnSep <:+: p) :
    ¬ nnSep <:+: ('\n' :: bulletJoin P) := by
  induction P with
  | nil =>
    intro h
    rw [bulletJoin_nil] at h
    have := h.length_le
    simp at this
  | cons p rest ih =>
    cases rest with
    | nil =>
      rw [bulletJoin_single]
      exact no_nn_nl_bullet (hP p (by simp)).2.2
    | cons q r =>
      rw [bulletJoin_cons₂]
      intro h
      have h0 : ['\n', '\n'] <:+:
          ('\n' :: '-' :: ' ' :: p) ++ ('\n' :: bulletJoin (q :: r)) := h
      rcases pair_infix_append h0 with h1 | h2 | h3
      · exact no_nn_nl_bullet (hP p (by simp)).2.2 h1
      · exact ih (fun x hx => hP x (List.mem_cons_of_mem _ hx)) h2
      · obtain ⟨⟨x0, hx0⟩, _⟩ := h3
        obtain ⟨hptrim, hpne, _⟩ := hP p (by simp)
        obtain ⟨t0, b, ht0⟩ : ∃ t0 b, p = t0 ++ [b] := by
          rcases List.eq_nil_or_concat p with hcon | ⟨t0, b, hcon⟩
          · exact absurd hcon hpne
          · exact ⟨t0, b, by simpa using hcon⟩
        have hb : ¬ isWS b := not_ws_last_of_trimRight (ht0 ▸ (trim_eq_self_parts hptrim).2)
        have hlast := congrArg List.getLast? hx0
        rw [ht0] at hlast
        have h5 : ('\n' :: '-' :: ' ' :: (t0 ++ [b])).getLast? = some b := by
          show (('\n' :: '-' :: ' ' :: t0) ++ [b]).getLast? = some b
          exact List.getLast?_concat _
        have h6 : (x0 ++ ['\n']).getLast? = some '\n' := List.getLast?_concat _
        rw [h5, h6] at hlast
        have hbn : b = '\n' := Option.some.inj hlast
        rw [hbn] at hb
        exact hb (by decide)

/-- For a nonempty trim-stable point list, the key-points region ends in a
non-whitespace character. -/
theorem bullets_last {P : List Str} (hP : ∀ p ∈ P, trim p = p ∧ p ≠ [])
    (hne : P ≠ []) :
    ∃ w c, '\n' :: bulletJoin P = w ++ [c] ∧ ¬ isWS c := by
  induction P with
  | nil => exact absurd rfl hne
  | cons p rest ih =>
    cases rest with
    | nil =>
      obtain ⟨hptrim, hpne⟩ := hP p (by simp)
      obtain ⟨t0, b, ht0⟩ : ∃ t0 b, p = t0 ++ [b] := by
        rcases List.eq_nil_or_concat p with hcon | ⟨t0, b, hcon⟩
        · exact absurd hcon hpne
        · exact ⟨t0, b, by simpa using hcon⟩
      have hb : ¬ isWS b := not_ws_last_of_trimRight (ht0 ▸ (trim_eq_self_parts hptrim).2)
      exact ⟨'\n' :: '-' :: ' ' :: t0, b, by rw [bulletJoin_single, ht0]; simp, hb⟩
    | cons q r =>
      obtain ⟨w, c, hw, hc⟩ := ih (fun x hx => hP x (List.mem_cons_of_mem _ hx)) (by simp)
      cases w with
      | nil =>
        exfalso
        have h2 : bulletJoin (q :: r) = [] := by
          have h3 := hw
          simp at h3
          exact h3.2
        cases r with
        | nil => rw [bulletJoin_single] at h2; exact absurd h2 (by simp)
        | cons s r2 => rw [bulletJoin_cons₂] at h2; exact absurd h2 (by simp)
      | cons w0 wt =>
        have hwt : bulletJoin (q :: r) = wt ++ [c] := by
          have h3 := hw
          have hw0 : w0 = '\n' := by
            have := congrArg List.head? h3
            simpa using this.symm
          rw [hw0] at h3
          simpa using h3
        refine ⟨'\n' :: '-' :: ' ' :: p ++ '\n' :: wt, c, ?_, hc⟩
        rw [bulletJoin_cons₂, hwt]
        simp

/-! ### Splitting the captured key-points section on the bullet delimiter -/

/-- The segments produced between the bullet dashes of `bulletJoin`. -/
def bulletSegs : List Str → List Str
  | [] => []
  | [p] => [' ' :: p]
  | p :: q :: rest => (' ' :: p ++ ['\n']) :: bulletSegs (q :: rest)

theorem splitOnP_append_left (p : Char → Bool) (xs l : Str) (h : ∀ x ∈ xs, ¬ p x) :
    (xs ++ l).splitOnP p = (l.splitOnP p).modifyHead (xs ++ ·) := by
  induction xs with
  | nil =>
    cases hs : l.splitOnP p with
    | nil => simp [hs]
    | cons a t => simp [hs]
  | cons x xt ih =>
    rw [List.cons_append, List.splitOnP_cons, if_neg (h x (by simp)),
      ih fun y hy => h y (List.mem_cons_of_mem _ hy)]
    cases hs : l.splitOnP p with
    | nil => simp
    | cons a t => simp

theorem splitOnP_bulletJoin {P : List Str} (hdash : ∀ p ∈ P, '-' ∉ p) (hne : P ≠ []) :
    (bulletJoin P).splitOnP (· == '-') = [] :: bulletSegs P := by
  induction P with
  | nil => exact absurd rfl hne
  | cons p rest ih =>
    cases rest with
    | nil =>
      rw [bulletJoin_single, bulletSegs]
      have h1 : (([] : Str) ++ '-' :: (' ' :: p)).splitOnP (· == '-') =
          ([] : Str) :: (' ' :: p).splitOnP (· == '-') :=
        List.splitOnP_first _ _ (by simp) '-' (by simp) _
      rw [show ('-' :: ' ' :: p) = ([] : Str) ++ '-' :: (' ' :: p) by simp, h1,
        List.splitOnP_eq_single]
      intro x hx
      simp only [beq_iff_eq]
      rcases List.mem_cons.mp hx with h | h
      · rw [h]; decide
      · intro he
        exact hdash p (by simp) (he ▸ h)
    | cons q r =>
      rw [bulletJoin_cons₂, bulletSegs]
      have h1 : (([] : Str) ++ '-' :: (' ' :: p ++ '\n' :: bulletJoin (q :: r))).splitOnP
          (· == '-') =
          ([] : Str) :: (' ' :: p ++ '\n' :: bulletJoin (q :: r)).splitOnP (· == '-') :=
        List.splitOnP_first _ _ (by simp) '-' (by simp) _
      rw [show ('-' :: ' ' :: p ++ '\n' :: bulletJoin (q :: r)) =
          ([] : Str) ++ '-' :: (' ' :: p ++ '\n' :: bulletJoin (q :: r)) by simp, h1]
      have h2 : (' ' :: p ++ '\n' :: bulletJoin (q :: r)) =
          (' ' :: p ++ ['\n']) ++ bulletJoin (q :: r) := by simp
      rw [h2, splitOnP_append_left _ _ _ ?hfree,
        ih (fun x hx => hdash x (List.mem_cons_of_mem _ hx)) (by simp)]
      · simp
      case hfree =>
        intro x hx
        simp only [beq_iff_eq]
        intro he
        rcases List.mem_append.mp hx with h | h
        · rcases List.mem_cons.mp h with h4 | h4
          · rw [he] at h4; exact absurd h4.symm (by decide)
          · exact hdash p (by simp) (he ▸ h4)
        · rw [he] at h
          simp at h

theorem map_trim_bulletSegs {P : List Str} (hP : ∀ p ∈ P, trim p = p ∧ p ≠ []) :
    (bulletSegs P).map trim = P := by
  induction P with
  | nil => rfl
  | cons p rest ih =>
    cases rest with
    | nil =>
      obtain ⟨h1, h2⟩ := hP p (by simp)
      rw [bulletSegs]
      simp only [List.map_cons, List.map_nil]
      rw [trim_bullet_last h1 h2]
    | cons q r =>
      obtain ⟨h1, h2⟩ := hP p (by simp)
      rw [bulletSegs]
      simp only [List.map_cons]
      rw [show (' ' :: p ++ ['\n']) = ' ' :: p ++ ['\n'] from rfl, trim_bullet_mid h1 h2,
        ih fun x hx => hP x (List.mem_cons_of_mem _ hx)]

theorem filter_ne_nil_of_all {P : List Str} (hP : ∀ p ∈ P, p ≠ []) :
    P.filter (fun x => x ≠ []) = P :=
  List.filter_eq_self.mpr fun a ha => by simpa using hP a ha

/-- The full key-points extraction pipeline of the stored-blob parsers:
`capture.split('-').map(trim).filter(nonempty)` recovers the point list. -/
theorem capture_keyPoints {P : List Str}
    (hP : ∀ p ∈ P, trim p = p ∧ p ≠ [] ∧ '-' ∉ p) (hne : P ≠ []) :
    ((('\n' :: bulletJoin P).splitOn '-').map trim).filter (fun x => x ≠ []) = P := by
  have h1 : ('\n' :: bulletJoin P).splitOn '-' = ['\n'] :: bulletSegs P := by
    rw [show ('\n' :: bulletJoin P) = ['\n'] ++ bulletJoin P by simp]
    rw [List.splitOn, splitOnP_append_left _ _ _ (by decide),
      splitOnP_bulletJoin (fun p hp => (hP p hp).2.2) hne]
    simp
  rw [h1]
  simp only [List.map_cons]
  rw [show trim ['\n'] = [] by decide,
    map_trim_bulletSegs fun p hp => ⟨(hP p hp).1, (hP p hp).2.1⟩]
  have h2 : (([] : Str) :: P).filter (fun x => x ≠ []) = P.filter (fun x => x ≠ []) := by
    simp
  rw [h2, filter_ne_nil_of_all fun p hp => (hP p hp).2.1]

/-! ### The stored-blob parsers (src/routes/summary.ts lines 34-70 and 306-326) -/

/-- Structured summary content as returned to clients. -/
structure Parsed where
  title : Str
  keyPoints : List Str
  fullSummary : Str
  deriving DecidableEq

/-- The anchored title regex `/^(.*?)\n/`: it matches at the first `\n`
provided every character before it is matchable by `.`, which excludes all
LineTerminators — so a CR (or LS/PS) before the first LF makes the whole
regex fail.  On success the capture is the text before the first `\n`. -/
def titleMatch (s : Str) : Option Str :=
  let pre := s.takeWhile (· ≠ '\n')
  if s.any (· = '\n') && pre.all (fun c => !(isLineTerm c)) then some pre else none

/-- The parse of a stored blob in `GET /:id` (and `GET /`): title from
`/^(.*?)\n/` then `trim`, key points from `/Key Points:([\s\S]*?)(?=\n\n|$)/i`
split on `'-'`, trimmed and filtered nonempty, full summary from
`/(?:Key Points:[\s\S]*?\n\n)([\s\S]*?)$/` trimmed (each replacing its default
only when its regex matched, the last two only when the key-points regex
matched). -/
def parseStored (stored : Str) : Parsed :=
  let title := match titleMatch stored with
    | some pre => trim pre
    | none => []
  match breakOnBy Char.toLower kpMarkerCI stored with
  | none => ⟨title, [], stored⟩
  | some pq =>
    let capture := match breakOnBy id nnSep pq.2 with
      | some ab => ab.1
      | none => pq.2
    let kps := ((capture.splitOn '-').map trim).filter (fun x => x ≠ [])
    let fs := match (breakOnBy id kpMarker stored).bind
        (fun pq2 => breakOnBy id nnSep pq2.2) with
      | some ab => trim ab.2
      | none => stored
    ⟨title, kps, fs⟩

/-- The parse of a cached blob on the generate cache-hit path (summary.ts lines
34-70).  Identical to `parseStored` except that the title defaults to
`metadata.title || "Video Summary"` and is only replaced inside the
key-points-match branch. -/
def parseCacheHit (metaTitle stored : Str) : Parsed :=
  let title0 := jsOr metaTitle "Video Summary".toList
  match breakOnBy Char.toLower kpMarkerCI stored with
  | none => ⟨title0, [], stored⟩
  | some pq =>
    let capture := match breakOnBy id nnSep pq.2 with
      | some ab => ab.1
      | none => pq.2
    let kps := ((capture.splitOn '-').map trim).filter (fun x => x ≠ [])
    let fs := match (breakOnBy id kpMarker stored).bind
        (fun pq2 => breakOnBy id nnSep pq2.2) with
      | some ab => trim ab.2
      | none => stored
    let title := match titleMatch stored with
      | some pre => trim pre
      | none => title0
    ⟨title, kps, fs⟩

/-! ### Locating the markers inside a flattened blob -/

theorem flatten_parts (T F : Str) (P : List Str) :
    flatten T P F =
      (T ++ ['\n', '\n']) ++ kpMarker ++ (('\n' :: bulletJoin P) ++ (['\n', '\n'] ++ F)) := by
  rw [flatten, show "\n\nKey Points:\n".toList = ['\n', '\n'] ++ kpMarker ++ ['\n'] by decide,
    show "\n\n".toList = ['\n', '\n'] from rfl]
  simp

theorem kpCI_locate {T F : Str} {P : List Str}
    (hTm : ¬ kpMarkerCI <:+: T.map Char.toLower) :
    breakOnBy Char.toLower kpMarkerCI (flatten T P F) =
      some (T ++ ['\n', '\n'], ('\n' :: bulletJoin P) ++ (['\n', '\n'] ++ F)) := by
  rw [flatten_parts]
  exact breakOnBy_locate
    (noEarly_of_sep _ (by decide) (by decide) hTm)
    (by decide) (by decide)

theorem kpExact_locate {T F : Str} {P : List Str}
    (hTm : ¬ kpMarkerCI <:+: T.map Char.toLower) :
    breakOnBy id kpMarker (flatten T P F) =
      some (T ++ ['\n', '\n'], ('\n' :: bulletJoin P) ++ (['\n', '\n'] ++ F)) := by
  rw [flatten_parts]
  have hTx : ¬ kpMarker <:+: T.map id := by
    rw [List.map_id]
    intro h
    exact hTm (by simpa [kpMarkerCI] using h.map Char.toLower)
  exact breakOnBy_locate
    (noEarly_of_sep _ rfl (by decide) hTx)
    (by simp) (by decide)

theorem noEarly_nn_bullets {P : List Str} (F : Str)
    (hP : ∀ p ∈ P, trim p = p ∧ p ≠ [] ∧ ¬ nnSep <:+: p) (hne : P ≠ []) :
    ∀ a1 a2, ('\n' :: bulletJoin P) = a1 ++ a2 → a2 ≠ [] →
      ¬ nnSep <+: (a2 ++ (['\n', '\n'] ++ F)).map id := by
  intro a1 a2 he hne2 hp
  rw [List.map_id] at hp
  have hsuf : a2 <:+ ('\n' :: bulletJoin P) := ⟨a1, he.symm⟩
  rcases prefix_append_cases hp with h1 | ⟨r, hr1, _⟩
  · exact no_nn_infix_bullets hP (h1.isInfix.trans hsuf.isInfix)
  · cases r with
    | nil =>
      simp only [List.append_nil] at hr1
      exact no_nn_infix_bullets hP (hr1 ▸ (List.prefix_refl a2).isInfix.trans hsuf.isInfix)
    | cons r0 r2 =>
      have ha2 : a2 = ['\n'] := by
        cases a2 with
        | nil => exact absurd rfl hne2
        | cons x xt =>
          have hx : x = '\n' := by
            have := congrArg List.head? hr1
            simpa using this.symm
          have hlen := congrArg List.length hr1
          simp [nnSep] at hlen
          have hxt : xt = [] := by
            have : xt.length = 0 := by omega
            exact List.length_eq_zero.mp this
          rw [hx, hxt]
      obtain ⟨w, c, hw, hc⟩ := bullets_last (fun p hp2 => ⟨(hP p hp2).1, (hP p hp2).2.1⟩) hne
      rw [ha2] at he
      rw [he] at hw
      have := congrArg List.getLast? hw
      rw [List.getLast?_concat, List.getLast?_concat] at this
      have hcn : c = '\n' := (Option.some.inj this).symm
      rw [hcn] at hc
      exact hc (by decide)

theorem nn_break_bullets_pos {P : List Str} (F : Str)
    (hP : ∀ p ∈ P, trim p = p ∧ p ≠ [] ∧ ¬ nnSep <:+: p) (hne : P ≠ []) :
    breakOnBy id nnSep (('\n' :: bulletJoin P) ++ (['\n', '\n'] ++ F)) =
      some ('\n' :: bulletJoin P, F) := by
  have h := @breakOnBy_locate id nnSep ('\n' :: bulletJoin P) ['\n', '\n'] F
    (noEarly_nn_bullets F hP hne) (by simp) (by decide)
  simpa using h

theorem nn_break_bullets_nil (F : Str) :
    breakOnBy id nnSep (('\n' :: bulletJoin []) ++ (['\n', '\n'] ++ F)) =
      some ([], '\n' :: F) := by
  rw [bulletJoin_nil]
  have h : (('\n' : Char) :: ([] : Str)) ++ (['\n', '\n'] ++ F) =
      ['\n', '\n'] ++ ('\n' :: F) := by simp
  rw [h]
  exact breakOnBy_hit (by simp) (by decide)

theorem takeWhile_no_nl {T r : Str} (hT : '\n' ∉ T) :
    (T ++ '\n' :: r).takeWhile (· ≠ '\n') = T := by
  induction T with
  | nil => simp [List.takeWhile]
  | cons a t ih =>
    have ha : a ≠ '\n' := fun h => hT (by simp [h])
    rw [List.cons_append, List.takeWhile_cons, if_pos (by simpa using ha)]
    rw [ih fun h => hT (List.mem_cons_of_mem _ h)]

theorem flatten_head_split (T F : Str) (P : List Str) :
    flatten T P F = T ++ '\n' ::
      ('\n' :: (kpMarker ++ (('\n' :: bulletJoin P) ++ (['\n', '\n'] ++ F)))) := by
  rw [flatten_parts]
  simp

theorem flatten_any_nl (T F : Str) (P : List Str) :
    (flatten T P F).any (· = '\n') = true := by
  rw [flatten_head_split]
  apply List.any_eq_true.mpr
  exact ⟨'\n', by simp, by simp⟩

theorem flatten_takeWhile {T : Str} (F : Str) (P : List Str) (hTn : '\n' ∉ T) :
    (flatten T P F).takeWhile (· ≠ '\n') = T := by
  rw [flatten_head_split]
  exact takeWhile_no_nl hTn

/-- The anchored title regex matches on a flattened blob whose title contains
no LineTerminator, capturing exactly the title. -/
theorem titleMatch_flatten {T : Str} (F : Str) (P : List Str)
    (hTlt : ∀ c ∈ T, isLineTerm c = false) :
    titleMatch (flatten T P F) = some T := by
  have hTn : '\n' ∉ T := by
    intro h
    have h2 := hTlt '\n' h
    simp [isLineTerm] at h2
  rw [titleMatch]
  simp only [flatten_takeWhile F P hTn]
  rw [if_pos ?hcond]
  case hcond =>
    rw [Bool.and_eq_true]
    refine ⟨flatten_any_nl T F P, ?_⟩
    rw [List.all_eq_true]
    intro c hc
    rw [hTlt c hc]
    rfl

theorem nn_break_bullets_pos2 {P : List Str} (F : Str)
    (hP : ∀ p ∈ P, trim p = p ∧ p ≠ [] ∧ ¬ nnSep <:+: p) (hne : P ≠ []) :
    breakOnBy id nnSep ('\n' :: (bulletJoin P ++ '\n' :: '\n' :: F)) =
      some ('\n' :: bulletJoin P, F) := by
  have h := nn_break_bullets_pos F hP hne
  simpa using h

theorem nn_break_bullets_nil2 (F : Str) :
    breakOnBy id nnSep ('\n' :: (bulletJoin [] ++ '\n' :: '\n' :: F)) =
      some ([], '\n' :: F) := by
  have h := nn_break_bullets_nil F
  simpa using h

/-- Round trip of the storage encoding through the `GET /:id` parser. -/
theorem parseStored_flatten {T F : Str} {P : List Str}
    (hTt : trim T = T) (hTlt : ∀ c ∈ T, isLineTerm c = false)
    (hTm : ¬ kpMarkerCI <:+: T.map Char.toLower)
    (hP : ∀ p ∈ P, trim p = p ∧ p ≠ [] ∧ '-' ∉ p ∧ ¬ nnSep <:+: p)
    (hF : trim F = F) :
    parseStored (flatten T P F) = ⟨T, P, F⟩ := by
  rcases eq_or_ne P [] with hPnil | hPne
  · subst hPnil
    simp only [parseStored, kpCI_locate hTm, kpExact_locate hTm,
      titleMatch_flatten F [] hTlt, Option.bind_some]
    simp [nn_break_bullets_nil2, hTt, trim_newline_cons hF]
    rfl
  · have hP3 : ∀ p ∈ P, trim p = p ∧ p ≠ [] ∧ ¬ nnSep <:+: p :=
      fun p hp => ⟨(hP p hp).1, (hP p hp).2.1, (hP p hp).2.2.2⟩
    simp only [parseStored, kpCI_locate hTm, kpExact_locate hTm,
      titleMatch_flatten F P hTlt, Option.bind_some]
    have h := capture_keyPoints
      (fun p hp => ⟨(hP p hp).1, (hP p hp).2.1, (hP p hp).2.2.1⟩) hPne
    simp [nn_break_bullets_pos2 F hP3 hPne, hTt, hF]
    simpa using h

/-- Round trip of the storage encoding through the cache-hit parser of the
generate handler; the metadata title is ignored because the key-points and
title regexes both match on a flattened blob. -/
theorem parseCacheHit_flatten {T F : Str} {P : List Str} (metaTitle : Str)
    (hTt : trim T = T) (hTlt : ∀ c ∈ T, isLineTerm c = false)
    (hTm : ¬ kpMarkerCI <:+: T.map Char.toLower)
    (hP : ∀ p ∈ P, trim p = p ∧ p ≠ [] ∧ '-' ∉ p ∧ ¬ nnSep <:+: p)
    (hF : trim F = F) :
    parseCacheHit metaTitle (flatten T P F) = ⟨T, P, F⟩ := by
  rcases eq_or_ne P [] with hPnil | hPne
  · subst hPnil
    simp only [parseCacheHit, kpCI_locate hTm, kpExact_locate hTm,
      titleMatch_flatten F [] hTlt, Option.bind_some]
    simp [nn_break_bullets_nil2, hTt, trim_newline_cons hF]
    rfl
  · have hP3 : ∀ p ∈ P, trim p = p ∧ p ≠ [] ∧ ¬ nnSep <:+: p :=
      fun p hp => ⟨(hP p hp).1, (hP p hp).2.1, (hP p hp).2.2.2⟩
    simp only [parseCacheHit, kpCI_locate hTm, kpExact_locate hTm,
      titleMatch_flatten F P hTlt, Option.bind_some]
    have h := capture_keyPoints
      (fun p hp => ⟨(hP p hp).1, (hP p hp).2.1, (hP p hp).2.2.1⟩) hPne
    simp [nn_break_bullets_pos2 F hP3 hPne, hTt, hF]
    simpa using h

/-! ### The Summarizer (src/services/generateSummary.ts) -/

deriving instance DecidableEq for Except

/-- `metadata?.title || "Video Summary"` default. -/
def defaultTitle : Str := "Video Summary".toList

/-- The structured result of `generateSummary`. -/
structure SummaryResult where
  title : Str
  keyPoints : List Str
  fullSummary : Str
  deriving DecidableEq

/-- The response-parsing step of `generateSummary` (lines 84-95): key points
from `/KEY POINTS:([\s\S]*?)(?=SUMMARY:|$)/i` (capture trimmed, split on `'-'`,
entries trimmed, empties dropped) and the full summary from
`/SUMMARY:([\s\S]*?)$/i` (capture trimmed; the whole response when absent). -/
def parseModelResponse (text : Str) : List Str × Str :=
  let keyPointsText := match breakOnBy Char.toLower kpMarkerCI text with
    | some pq =>
      match breakOnBy Char.toLower smMarkerCI pq.2 with
      | some ab => trim ab.1
      | none => trim pq.2
    | none => []
  let keyPoints := ((keyPointsText.splitOn '-').map trim).filter (fun x => x ≠ [])
  let fullSummary := match breakOnBy Char.toLower smMarkerCI text with
    | some ab => trim ab.2
    | none => text
  (keyPoints, fullSummary)

/-- `generateSummary(transcript, metadata)`.  The call to the external
generative-AI model is the parameter `api`: `Except.ok text` is a model
response, `Except.error e` a thrown upstream error (caught by the `catch`
block, which returns a degraded result).  Blank transcripts throw
(`Except.error`) before the model is consulted. -/
def generateSummary (transcript : Str) (metaTitle : Str) (api : Except Str Str) :
    Except Str SummaryResult :=
  if trim transcript = [] then Except.error "Empty transcript provided".toList
  else
    let title := jsOr metaTitle defaultTitle
    match api with
    | Except.error e =>
      Except.ok ⟨title, ["Summary generation failed".toList],
        "Sorry, we couldn\x27t generate a summary for this video. Error: ".toList ++ e⟩
    | Except.ok text =>
      let pr := parseModelResponse text
      Except.ok ⟨title,
        if pr.1 ≠ [] then pr.1 else ["No key points extracted".toList],
        if pr.2 ≠ [] then pr.2 else "Summary generation failed. Please try again.".toList⟩

/-! ### Data model: the relational store seen through Prisma -/

/-- A row of the `User` table. -/
structure User where
  id : Str
  email : Str
  name : Str
  imageUrl : Str
  provider : Str
  credits : Int
  deriving DecidableEq

/-- A row of the `Summary` table. -/
structure Summary where
  id : Str
  userId : Str
  videoUrl : Str
  summary : Str
  transcript : Str
  deriving DecidableEq

/-- The store. -/
structure Db where
  users : List User
  summaries : List Summary
  deriving DecidableEq

/-- `prisma.user.findUnique({ where: { id } })`. -/
def findUser (users : List User) (uid : Str) : Option User :=
  users.find? (fun u => u.id == uid)

/-- `prisma.summary.findFirst({ where: { videoUrl } })`. -/
def findSummaryByUrl (ss : List Summary) (url : Str) : Option Summary :=
  ss.find? (fun s => s.videoUrl == url)

/-- `prisma.user.update({ where: { id }, data: { credits: { decrement: 1 } } })`:
an unconditional decrement, not floored at zero. -/
def decCredits (users : List User) (uid : Str) : List User :=
  users.map fun u => if u.id = uid then { u with credits := u.credits - 1 } else u

/-- The request metadata of the first-revision generate handler; the empty
string stands for an absent (falsy) field. -/
structure Metadata where
  title : Str
  videoId : Str
  url : Str
  deriving DecidableEq

/-- `metadata.url || `https://www.youtube.com/watch?v=${metadata.videoId}``. -/
def videoUrlOf (m : Metadata) : Str :=
  jsOr m.url ("https://www.youtube.com/watch?v=".toList ++ m.videoId)

/-- Which of the three `try/catch`-guarded store operations of the generate
handler throw: the cache lookup (line 72, swallowed: generation continues),
the credit lookup (line 100, swallowed: the credit check is bypassed with
`userCredits = 0`), and the persist-and-decrement transaction (line 138,
swallowed: the summary is still returned). -/
structure DbFaults where
  cacheLookupFails : Bool
  creditLookupFails : Bool
  txFails : Bool
  deriving DecidableEq

def noFaults : DbFaults := ⟨false, false, false⟩

/-! ### The generate handlers (src/routes/summary.ts) -/

/-- Responses of the first-revision `POST /generate` handler. -/
inductive GenResp where
  | badRequestContent
  | badRequestMetadata
  | cacheHit (p : Parsed)
  | userNotFound
  | insufficientCredits
  | serverError
  | emptyGenerated
  | generated (p : Parsed) (creditsRemaining : Int)
  deriving DecidableEq

/-- The first-revision `POST /generate` handler (summary.ts lines 10-155):
validate content and metadata, look up the global cache by video URL (returning
the re-parsed blob on a hit), check the caller's credits, call the Summarizer,
and persist the flattened blob while decrementing one credit in a transaction.
`newId` is the id the store assigns to a created row. -/
def generate1 (db : Db) (userId : Str) (content : Str) (m : Metadata)
    (api : Except Str Str) (faults : DbFaults) (newId : Str) : GenResp × Db :=
  if content = [] then (.badRequestContent, db)
  else if m.videoId = [] then (.badRequestMetadata, db)
  else
    let vurl := videoUrlOf m
    match (if faults.cacheLookupFails then none else findSummaryByUrl db.summaries vurl) with
    | some ex => (.cacheHit (parseCacheHit m.title ex.summary), db)
    | none =>
      let check : Except GenResp Int :=
        if faults.creditLookupFails then Except.ok 0
        else match findUser db.users userId with
          | none => Except.error GenResp.userNotFound
          | some u =>
            if u.credits < 1 then Except.error GenResp.insufficientCredits
            else Except.ok u.credits
      match check with
      | Except.error r => (r, db)
      | Except.ok userCredits =>
        match generateSummary content m.title api with
        | Except.error _ => (.serverError, db)
        | Except.ok s =>
          if s.fullSummary = [] then (.emptyGenerated, db)
          else
            let blob := flatten s.title s.keyPoints s.fullSummary
            let db2 := if faults.txFails then db else
              { users := decCredits db.users userId,
                summaries := db.summaries ++ [⟨newId, userId, vurl, blob, content⟩] }
            (.generated ⟨s.title, s.keyPoints, s.fullSummary⟩
              (max 0 (userCredits - 1)), db2)

/-- Responses of the second-revision `POST /generate/` handler. -/
inductive Gen2Resp where
  | badRequest
  | insufficientCredits
  | serverError
  | ok (s : SummaryResult)
  deriving DecidableEq

/-- The second-revision `POST /generate/` handler (summary.ts lines 398-432):
no cache, credits checked (`!user || user.credits <= 0` rejects), Summarizer
called, then one credit deducted unconditionally.  It passes the title string
as the whole metadata argument, so `metadata?.title` is undefined inside the
Summarizer. -/
def generate2 (db : Db) (userId videoUrl transcript ttl : Str)
    (api : Except Str Str) : Gen2Resp × Db :=
  if videoUrl = [] ∨ transcript = [] ∨ ttl = [] then (.badRequest, db)
  else
    match findUser db.users userId with
    | none => (.insufficientCredits, db)
    | some u =>
      if u.credits ≤ 0 then (.insufficientCredits, db)
      else
        match generateSummary transcript [] api with
        | Except.error _ => (.serverError, db)
        | Except.ok s => (.ok s, { db with users := decCredits db.users userId })

/-- The `POST /save` handler (summary.ts lines 237-280): requires videoId,
title and fullSummary, flattens the client-supplied structured summary into a
blob and stores it.  Returns the created id. -/
def saveHandler (db : Db) (uid videoId ttl : Str) (kps : List Str)
    (fs sourceUrl newId : Str) : Option Str × Db :=
  if videoId = [] ∨ ttl = [] ∨ fs = [] then (none, db)
  else
    let vurl := jsOr sourceUrl ("https://www.youtube.com/watch?v=".toList ++ videoId)
    let blob := flatten ttl kps fs
    (some newId, { db with summaries := db.summaries ++ [⟨newId, uid, vurl, blob, []⟩] })

/-- Responses of `GET /:id`. -/
inductive GetResp where
  | notFound
  | found (sid : Str) (p : Parsed) (sourceUrl : Str)
  deriving DecidableEq

/-- The `GET /:id` handler (summary.ts lines 283-347): owner-scoped
`findFirst({ where: { id, userId } })`, 404 when absent, otherwise the
re-parsed blob. -/
def getById (db : Db) (uid sid : Str) : GetResp :=
  match db.summaries.find? (fun s => s.id == sid && s.userId == uid) with
  | none => .notFound
  | some s => .found s.id (parseStored s.summary) s.videoUrl

/-- The `DELETE /:id` handler (summary.ts lines 350-387): owner-scoped
existence check, then `delete({ where: { id } })`.  `true` means deleted. -/
def deleteById (db : Db) (uid sid : Str) : Bool × Db :=
  match db.summaries.find? (fun s => s.id == sid && s.userId == uid) with
  | none => (false, db)
  | some _ => (true, { db with summaries := db.summaries.filter (fun s => s.id != sid) })

/-! ### The Auth Gate (src/middleware/authMiddleware.ts, first revision) -/

/-- The identity returned by `supabase.auth.getUser` for a valid token; the
empty string stands for an absent metadata field. -/
structure Verified where
  id : Str
  email : Str
  fullName : Str
  avatarUrl : Str
  provider : Str
  deriving DecidableEq

/-- The `prisma.user.upsert` directory sync (lines 46-62): create with 10 free
credits when absent; otherwise update email and the supplied profile fields
(an absent `full_name`/`avatar_url` becomes `undefined`, leaving the stored
value; `provider` falls back to `"oauth"`), never touching `credits`. -/
def authSync (db : Db) (v : Verified) : Db :=
  match findUser db.users v.id with
  | none =>
    { db with users := db.users ++
        [⟨v.id, v.email, v.fullName, v.avatarUrl, jsOr v.provider "oauth".toList, 10⟩] }
  | some _ =>
    { db with users := db.users.map fun u =>
        if u.id = v.id then
          { u with email := v.email,
                   name := if v.fullName = [] then u.name else v.fullName,
                   imageUrl := if v.avatarUrl = [] then u.imageUrl else v.avatarUrl,
                   provider := jsOr v.provider "oauth".toList }
        else u }

/-- The second revision's directory sync (authMiddleware.ts lines 123-152):
`findUnique` then `create` (10 free credits) or `update`.  The update sets
email, falls back to the stored name/image when the credential supplies none,
and sets `provider` to `metadata.provider || dbUser.provider || "oauth"` —
unlike the first revision it keeps the stored provider before defaulting.
`credits` is never touched on update. -/
def authSync2 (db : Db) (v : Verified) : Db :=
  match findUser db.users v.id with
  | none =>
    { db with users := db.users ++
        [⟨v.id, v.email, v.fullName, v.avatarUrl, jsOr v.provider "oauth".toList, 10⟩] }
  | some _ =>
    { db with users := db.users.map fun u =>
        if u.id = v.id then
          { u with email := v.email,
                   name := if v.fullName = [] then u.name else v.fullName,
                   imageUrl := if v.avatarUrl = [] then u.imageUrl else v.avatarUrl,
                   provider := jsOr v.provider (jsOr u.provider "oauth".toList) }
        else u }

/-- Outcomes of the auth middleware: a rejecting response with its HTTP status,
or proceeding to the next stage with the attached `req.user` fields. -/
inductive AuthResult where
  | reject (status : Nat)
  | proceed (uid email nm image : Str)
  deriving DecidableEq

/-- The middleware (lines 21-76): missing bearer header → 401; invalid token
(`verifier = none`) → 401; then the directory sync runs inside `try { ... }`,
and a sync failure is caught and answered with a 500, `next()` not called. -/
def authMiddleware (db : Db) (hasBearer : Bool) (verifier : Option Verified)
    (syncFails : Bool) : AuthResult × Db :=
  if hasBearer then
    match verifier with
    | none => (.reject 401, db)
    | some v =>
      if syncFails then (.reject 500, db)
      else (.proceed v.id v.email v.fullName v.avatarUrl, authSync db v)
  else (.reject 401, db)

/-! ### Helper lemmas for locating markers in a model response -/

theorem prefix_take_comm {p x y : Str} (h : p <+: x ++ y) :
    p.take x.length = x.take p.length := by
  induction p generalizing x with
  | nil => simp
  | cons a p ih =>
    cases x with
    | nil => simp
    | cons b x2 =>
      obtain ⟨u, hu⟩ := h
      simp only [List.cons_append, List.cons.injEq] at hu
      obtain ⟨hab, hu2⟩ := hu
      have h2 := @ih x2 ⟨u, hu2⟩
      simp [List.take, hab, h2]

/-- No occurrence of the `SUMMARY:` marker can start inside the literal
`KEY POINTS:` header: no suffix of the header is compatible with the marker. -/
theorem noEarly_sm_in_header (X : Str) :
    ∀ a1 a2, "KEY POINTS:".toList = a1 ++ a2 → a2 ≠ [] →
      ¬ smMarkerCI <+: (a2 ++ X).map Char.toLower := by
  intro a1 a2 he hne hp
  have hmem : a2 ∈ ("KEY POINTS:".toList).tails :=
    (List.mem_tails _ _).mpr ⟨a1, he.symm⟩
  rw [List.map_append] at hp
  have htk := prefix_take_comm hp
  fin_cases hmem <;> first
    | exact hne rfl
    | exact absurd htk (by decide)

/-- No occurrence of the `SUMMARY:` marker starts before the real one in a
canonical `KEY POINTS: ... SUMMARY: ...` response whose key-points section `M`
contains no earlier occurrence. -/
theorem noEarly_sm_before {M post : Str}
    (hM : ∀ m1 m2, M = m1 ++ m2 → m2 ≠ [] →
      ¬ smMarkerCI <+: (m2 ++ ("SUMMARY:".toList ++ post)).map Char.toLower) :
    ∀ a1 a2, ("KEY POINTS:".toList ++ M) = a1 ++ a2 → a2 ≠ [] →
      ¬ smMarkerCI <+: (a2 ++ ("SUMMARY:".toList ++ post)).map Char.toLower := by
  intro a1 a2 he hne hp
  rcases List.append_eq_append_iff.mp he with ⟨w, hw1, hw2⟩ | ⟨w, hw1, hw2⟩
  · exact hM w a2 hw2 hne hp
  · rcases eq_or_ne w [] with hwnil | hwne
    · rw [hwnil] at hw2
      simp only [List.nil_append] at hw2
      exact hM [] a2 (by simp [hw2]) hne hp
    · have hmem : w ∈ ("KEY POINTS:".toList).tails :=
        (List.mem_tails _ _).mpr ⟨a1, hw1.symm⟩
      rw [hw2, List.append_assoc, List.map_append] at hp
      have htk := prefix_take_comm hp
      fin_cases hmem <;> first
        | exact hwne rfl
        | exact absurd htk (by decide)

/-- C6: for every input whose content is empty or consists only of whitespace
(its JavaScript `trim` is empty), `generateSummary` fails with the validation
error `"Empty transcript provided"`; the result is the same for every value of
the external-API parameter, so no external call influences (or is needed for)
the outcome. -/
theorem C6_blank_content_rejected (t m : Str) (api : Except Str Str)
    (h : trim t = []) :
    generateSummary t m api = Except.error "Empty transcript provided".toList := by
  simp [generateSummary, h]

theorem C6_blank_content_rejected_witness :
    trim "   ".toList = [] ∧
    generateSummary "   ".toList "T".toList (Except.ok "x".toList) =
      Except.error "Empty transcript provided".toList :=
  ⟨by decide, C6_blank_content_rejected _ _ _ (by decide)⟩

/-- C7: the response-parsing step of the Summarizer.  Part 1: when neither the
`KEY POINTS` nor the `SUMMARY` marker occurs in the model response (case
insensitively), the parse returns the whole response as the full summary and an
empty key-points list.  Part 2: in a canonical marker-bearing response
`KEY POINTS:<section>SUMMARY:<rest>` (with no earlier `SUMMARY:` occurrence
inside the section), the key points are obtained from the marker section by
splitting on the bullet delimiter `'-'` and trimming each entry (empty entries
being dropped), and the full summary is the trimmed text after `SUMMARY:`. -/
theorem C7_response_parsing :
    (∀ text : Str, ¬ kpMarkerCI <:+: text.map Char.toLower →
      ¬ smMarkerCI <:+: text.map Char.toLower →
      parseModelResponse text = ([], text)) ∧
    (∀ M post : Str,
      (∀ m1 m2, M = m1 ++ m2 → m2 ≠ [] →
        ¬ smMarkerCI <+: (m2 ++ ("SUMMARY:".toList ++ post)).map Char.toLower) →
      parseModelResponse ("KEY POINTS:".toList ++ M ++ "SUMMARY:".toList ++ post) =
        ((((trim M).splitOn '-').map trim).filter (fun x => x ≠ []), trim post)) := by
  constructor
  · intro text h1 h2
    rw [parseModelResponse, breakOnBy_eq_none_of_not_infix h1,
      breakOnBy_eq_none_of_not_infix h2]
    show (((([] : Str).splitOn '-').map trim).filter (fun x => x ≠ []), text) = ([], text)
    have h3 : ((([] : Str).splitOn '-').map trim).filter (fun x => x ≠ []) = [] := by decide
    rw [h3]
  · intro M post hM
    have hkp : breakOnBy Char.toLower kpMarkerCI
        ("KEY POINTS:".toList ++ M ++ "SUMMARY:".toList ++ post) =
        some ([], M ++ "SUMMARY:".toList ++ post) := by
      have h := @breakOnBy_hit Char.toLower kpMarkerCI "KEY POINTS:".toList
        (M ++ "SUMMARY:".toList ++ post) (by decide) (by decide)
      simpa using h
    have hsm1 : breakOnBy Char.toLower smMarkerCI (M ++ "SUMMARY:".toList ++ post) =
        some (M, post) := by
      rw [show (M ++ "SUMMARY:".toList ++ post) = M ++ "SUMMARY:".toList ++ post by rfl]
      exact breakOnBy_locate (fun a1 a2 he hne2 => hM a1 a2 he hne2) (by decide) (by decide)
    have hsm2 : breakOnBy Char.toLower smMarkerCI
        ("KEY POINTS:".toList ++ M ++ "SUMMARY:".toList ++ post) =
        some ("KEY POINTS:".toList ++ M, post) := by
      rw [show ("KEY POINTS:".toList ++ M ++ "SUMMARY:".toList ++ post) =
        ("KEY POINTS:".toList ++ M) ++ "SUMMARY:".toList ++ post by simp]
      exact breakOnBy_locate (noEarly_sm_before hM) (by decide) (by decide)
    simp only [parseModelResponse, hkp, hsm1, hsm2]

theorem C7_response_parsing_witness :
    parseModelResponse "no markers here".toList = ([], "no markers here".toList) ∧
    parseModelResponse
        ("KEY POINTS:".toList ++ "\n- a\n- b\n\n".toList ++ "SUMMARY:".toList ++
          "\nGood.".toList) =
      ((((trim "\n- a\n- b\n\n".toList).splitOn '-').map trim).filter (fun x => x ≠ []),
        trim "\nGood.".toList) := by
  constructor
  · exact C7_response_parsing.1 "no markers here".toList (by decide) (by decide)
  · refine C7_response_parsing.2 "\n- a\n- b\n\n".toList "\nGood.".toList ?_
    intro m1 m2 he hne hp
    have hmem : m2 ∈ ("\n- a\n- b\n\n".toList).tails :=
      (List.mem_tails _ _).mpr ⟨m1, he.symm⟩
    rw [List.map_append] at hp
    have htk := prefix_take_comm hp
    fin_cases hmem <;> first
      | exact hne rfl
      | exact absurd htk (by decide)

/-- The Summarizer substitutes placeholders so that a non-thrown result always
carries a nonempty key-points list and a nonempty full summary. -/
theorem generateSummary_ok_nonempty (t m : Str) (api : Except Str Str)
    (ht : trim t ≠ []) :
    ∃ s, generateSummary t m api = Except.ok s ∧
      s.keyPoints ≠ [] ∧ s.fullSummary ≠ [] := by
  rw [generateSummary, if_neg ht]
  cases api with
  | error e =>
    refine ⟨_, rfl, by simp, ?_⟩
    intro h
    exact absurd (List.append_eq_nil.mp h).1 (by decide)
  | ok text =>
    refine ⟨_, rfl, ?_, ?_⟩
    · by_cases h : (parseModelResponse text).1 ≠ []
      · rw [if_pos h]; exact h
      · rw [if_neg h]; simp
    · by_cases h : (parseModelResponse text).2 ≠ []
      · rw [if_pos h]; exact h
      · rw [if_neg h]; simp

/-- The credit-check-and-generate tail of the generate handler never produces
the `emptyGenerated` response. -/
theorem generate1_tail_ne (db : Db) (uid c : Str) (m : Metadata) (api : Except Str Str)
    (faults : DbFaults) (nid : Str) :
    ((match
        (if faults.creditLookupFails then Except.ok 0
         else match findUser db.users uid with
           | none => Except.error GenResp.userNotFound
           | some u => if u.credits < 1 then Except.error GenResp.insufficientCredits
               else Except.ok u.credits : Except GenResp Int) with
      | Except.error r => (r, db)
      | Except.ok userCredits =>
        match generateSummary c m.title api with
        | Except.error _ => (GenResp.serverError, db)
        | Except.ok s =>
          if s.fullSummary = [] then (GenResp.emptyGenerated, db)
          else
            (GenResp.generated ⟨s.title, s.keyPoints, s.fullSummary⟩
                (max 0 (userCredits - 1)),
              if faults.txFails then db
              else { users := decCredits db.users uid,
                     summaries := db.summaries ++
                       [⟨nid, uid, videoUrlOf m,
                          flatten s.title s.keyPoints s.fullSummary, c⟩] })) :
      GenResp × Db).1 ≠ GenResp.emptyGenerated := by
  split
  · rename_i r heq
    split at heq
    · cases heq
    · split at heq
      · cases heq
        simp
      · split at heq
        · cases heq
          simp
        · cases heq
  · split
    · simp
    · split
      · rename_i userCredits s heq hcond
        exfalso
        by_cases htr : trim c = []
        · rw [generateSummary, if_pos htr] at heq
          cases heq
        · obtain ⟨s2, hs2, _, hsf⟩ := generateSummary_ok_nonempty c m.title api htr
          rw [hs2] at heq
          injection heq with h3
          rw [← h3] at hcond
          exact hsf hcond
      · simp

/-- C10: whenever the blank-content check passes, `generateSummary` returns a
result with a nonempty key-points list and a nonempty full summary — on the
degraded upstream-failure path as well, via the substituted placeholder
entries — and consequently the generate handler branch answering 500 when
`summary.fullSummary` is empty (summary.ts lines 108-113, `emptyGenerated`
here) is unreachable for every input, store state and fault combination. -/
theorem C10_empty_summary_branch_unreachable :
    (∀ t m api, trim t ≠ [] → ∃ s, generateSummary t m api = Except.ok s ∧
      s.keyPoints ≠ [] ∧ s.fullSummary ≠ []) ∧
    (∀ db uid c m api faults nid,
      (generate1 db uid c m api faults nid).1 ≠ GenResp.emptyGenerated) := by
  refine ⟨fun t m api ht => generateSummary_ok_nonempty t m api ht, ?_⟩
  intro db uid c m api faults nid
  obtain ⟨cl, crl, tx⟩ := faults
  unfold generate1
  split
  · simp
  split
  · simp
  cases cl with
  | true => exact generate1_tail_ne db uid c m api ⟨true, crl, tx⟩ nid
  | false =>
    cases hcache : findSummaryByUrl db.summaries (videoUrlOf m) with
    | some ex => simp [hcache]
    | none =>
      simp only [hcache]
      exact generate1_tail_ne db uid c m api ⟨false, crl, tx⟩ nid

theorem C10_empty_summary_branch_unreachable_witness :
    trim "hello".toList ≠ [] ∧
    ∃ s, generateSummary "hello".toList [] (Except.error "down".toList) = Except.ok s ∧
      s.keyPoints ≠ [] ∧ s.fullSummary ≠ [] :=
  ⟨by decide,
    C10_empty_summary_branch_unreachable.1 "hello".toList [] (Except.error "down".toList)
      (by decide)⟩

/-- C1: in both revisions of the generate handler, a request by a user whose
stored credit balance is 0 — with nonempty content, a nonempty videoId (and
the second revision's required fields), and no cached summary for the video —
is answered with the 403 `Insufficient credits` response, and the store is
returned unchanged (no credit mutation, no Summary row); the conclusion holds
for every value of the external-API parameter, so the Summarizer is never
consulted. -/
theorem C1_zero_credits_rejected
    (db : Db) (uid content : Str) (m : Metadata) (api : Except Str Str) (nid : Str)
    (u : User)
    (hc : content ≠ []) (hv : m.videoId ≠ [])
    (hu : findUser db.users uid = some u) (hz : u.credits = 0)
    (hmiss : findSummaryByUrl db.summaries (videoUrlOf m) = none)
    (db2 : Db) (uid2 vurl2 transcript2 ttl2 : Str) (api2 : Except Str Str) (u2 : User)
    (hv2 : vurl2 ≠ []) (ht2 : transcript2 ≠ []) (htt2 : ttl2 ≠ [])
    (hu2 : findUser db2.users uid2 = some u2) (hz2 : u2.credits = 0) :
    generate1 db uid content m api noFaults nid = (GenResp.insufficientCredits, db) ∧
    generate2 db2 uid2 vurl2 transcript2 ttl2 api2 = (Gen2Resp.insufficientCredits, db2) := by
  constructor
  · simp [generate1, hc, hv, hmiss, hu, hz, noFaults]
  · simp [generate2, hv2, ht2, htt2, hu2, hz2]

theorem C1_zero_credits_rejected_witness :
    generate1 ⟨[⟨"u1".toList, "e".toList, [], [], [], 0⟩], []⟩ "u1".toList
        "tr".toList ⟨"T".toList, "v".toList, []⟩ (Except.ok "x".toList) noFaults
        "s1".toList =
      (GenResp.insufficientCredits, ⟨[⟨"u1".toList, "e".toList, [], [], [], 0⟩], []⟩) ∧
    generate2 ⟨[⟨"u1".toList, "e".toList, [], [], [], 0⟩], []⟩ "u1".toList
        "url".toList "tr".toList "T".toList (Except.ok "x".toList) =
      (Gen2Resp.insufficientCredits, ⟨[⟨"u1".toList, "e".toList, [], [], [], 0⟩], []⟩) :=
  C1_zero_credits_rejected
    ⟨[⟨"u1".toList, "e".toList, [], [], [], 0⟩], []⟩ "u1".toList "tr".toList
    ⟨"T".toList, "v".toList, []⟩ (Except.ok "x".toList) "s1".toList
    ⟨"u1".toList, "e".toList, [], [], [], 0⟩
    (by decide) (by decide) (by decide) (by decide) (by decide)
    ⟨[⟨"u1".toList, "e".toList, [], [], [], 0⟩], []⟩ "u1".toList "url".toList
    "tr".toList "T".toList (Except.ok "x".toList)
    ⟨"u1".toList, "e".toList, [], [], [], 0⟩
    (by decide) (by decide) (by decide) (by decide) (by decide)

/-- The id of a found user matches the looked-up id. -/
theorem findUser_id {users : List User} {uid : Str} {u : User}
    (h : findUser users uid = some u) : u.id = uid := by
  have h2 := List.find?_some h
  simpa using h2

/-- `decrement` keeps every balance nonnegative when ids are unique, the
decremented user was found with at least one credit, and balances were
nonnegative before. -/
theorem decCredits_nonneg {users : List User} {uid : Str} {u : User}
    (hids : (users.map User.id).Nodup)
    (hfind : findUser users uid = some u) (hpos : 1 ≤ u.credits)
    (hnn : ∀ w ∈ users, 0 ≤ w.credits) :
    ∀ w ∈ decCredits users uid, 0 ≤ w.credits := by
  induction users with
  | nil => simp [decCredits]
  | cons v rest ih =>
    intro w hw
    simp only [decCredits, List.map_cons] at hw
    rcases List.mem_cons.mp hw with hw1 | hw2
    · by_cases hv : v.id = uid
      · have huv : u = v := by
          have h3 := hfind
          rw [findUser, List.find?_cons] at h3
          have hb : (v.id == uid) = true := by simpa using hv
          rw [hb] at h3
          exact (Option.some.inj h3).symm
        rw [hw1, if_pos hv]
        have h4 : 1 ≤ v.credits := huv ▸ hpos
        show 0 ≤ v.credits - 1
        omega
      · rw [hw1, if_neg hv]
        exact hnn v (by simp)
    · by_cases hv : v.id = uid
      · have hrest : ∀ x ∈ rest, x.id ≠ uid := by
          intro x hx he
          rw [List.map_cons, List.nodup_cons] at hids
          exact hids.1 (hv ▸ he ▸ List.mem_map_of_mem User.id hx)
        have : (rest.map fun x => if x.id = uid then { x with credits := x.credits - 1 }
            else x) = rest := by
          rw [List.map_congr_left fun x hx => if_neg (hrest x hx)]
          exact List.map_id rest
        rw [this] at hw2
        exact hnn w (List.mem_cons_of_mem _ hw2)
      · have hfind2 : findUser rest uid = some u := by
          have h3 := hfind
          rw [findUser, List.find?_cons] at h3
          have hb : (v.id == uid) = false := by simpa using hv
          rw [hb] at h3
          exact h3
        rw [List.map_cons, List.nodup_cons] at hids
        exact ih hids.2 hfind2 (fun x hx => hnn x (List.mem_cons_of_mem _ hx)) w hw2

/-- The users component left by the credit-check-and-generate tail: unchanged,
or decremented after either a passed balance check or a bypassed (faulted)
credit lookup. -/
theorem generate1_tail_users (db : Db) (uid c : Str) (m : Metadata)
    (api : Except Str Str) (faults : DbFaults) (nid : Str) :
    ((match
        (if faults.creditLookupFails then Except.ok 0
         else match findUser db.users uid with
           | none => Except.error GenResp.userNotFound
           | some u => if u.credits < 1 then Except.error GenResp.insufficientCredits
               else Except.ok u.credits : Except GenResp Int) with
      | Except.error r => (r, db)
      | Except.ok userCredits =>
        match generateSummary c m.title api with
        | Except.error _ => (GenResp.serverError, db)
        | Except.ok s =>
          if s.fullSummary = [] then (GenResp.emptyGenerated, db)
          else
            (GenResp.generated ⟨s.title, s.keyPoints, s.fullSummary⟩
                (max 0 (userCredits - 1)),
              if faults.txFails then db
              else { users := decCredits db.users uid,
                     summaries := db.summaries ++
                       [⟨nid, uid, videoUrlOf m,
                          flatten s.title s.keyPoints s.fullSummary, c⟩] })) :
      GenResp × Db).2.users = db.users ∨
    (((match
        (if faults.creditLookupFails then Except.ok 0
         else match findUser db.users uid with
           | none => Except.error GenResp.userNotFound
           | some u => if u.credits < 1 then Except.error GenResp.insufficientCredits
               else Except.ok u.credits : Except GenResp Int) with
      | Except.error r => (r, db)
      | Except.ok userCredits =>
        match generateSummary c m.title api with
        | Except.error _ => (GenResp.serverError, db)
        | Except.ok s =>
          if s.fullSummary = [] then (GenResp.emptyGenerated, db)
          else
            (GenResp.generated ⟨s.title, s.keyPoints, s.fullSummary⟩
                (max 0 (userCredits - 1)),
              if faults.txFails then db
              else { users := decCredits db.users uid,
                     summaries := db.summaries ++
                       [⟨nid, uid, videoUrlOf m,
                          flatten s.title s.keyPoints s.fullSummary, c⟩] })) :
      GenResp × Db).2.users = decCredits db.users uid ∧
      (faults.creditLookupFails = true ∨
        ∃ u, findUser db.users uid = some u ∧ 1 ≤ u.credits)) := by
  split
  · exact Or.inl rfl
  · rename_i userCredits heq
    split
    · exact Or.inl rfl
    · split
      · exact Or.inl rfl
      · by_cases htx : faults.txFails
        · rw [if_pos htx]
          exact Or.inl rfl
        · rw [if_neg htx]
          refine Or.inr ⟨rfl, ?_⟩
          split at heq
          · rename_i hcl
            exact Or.inl hcl
          · split at heq
            · cases heq
            · split at heq
              · cases heq
              · rename_i u hfind hlt
                exact Or.inr ⟨u, hfind, by omega⟩

/-- Case analysis of the users component after a first-revision generate. -/
theorem generate1_users_cases (db : Db) (uid c : Str) (m : Metadata)
    (api : Except Str Str) (faults : DbFaults) (nid : Str) :
    (generate1 db uid c m api faults nid).2.users = db.users ∨
    ((generate1 db uid c m api faults nid).2.users = decCredits db.users uid ∧
      (faults.creditLookupFails = true ∨
        ∃ u, findUser db.users uid = some u ∧ 1 ≤ u.credits)) := by
  obtain ⟨cl, crl, tx⟩ := faults
  unfold generate1
  split
  · exact Or.inl rfl
  split
  · exact Or.inl rfl
  cases cl with
  | true => exact generate1_tail_users db uid c m api ⟨true, crl, tx⟩ nid
  | false =>
    cases hcache : findSummaryByUrl db.summaries (videoUrlOf m) with
    | some ex => simp [hcache]
    | none =>
      simp only [hcache]
      exact generate1_tail_users db uid c m api ⟨false, crl, tx⟩ nid

/-- Case analysis of the users component after a second-revision generate. -/
theorem generate2_users_cases (db : Db) (uid vurl t ttl : Str)
    (api : Except Str Str) :
    (generate2 db uid vurl t ttl api).2.users = db.users ∨
    ((generate2 db uid vurl t ttl api).2.users = decCredits db.users uid ∧
      ∃ u, findUser db.users uid = some u ∧ 1 ≤ u.credits) := by
  unfold generate2
  split
  · exact Or.inl rfl
  split
  · exact Or.inl rfl
  · rename_i u hfind
    split
    · exact Or.inl rfl
    · rename_i hle
      split
      · exact Or.inl rfl
      · exact Or.inr ⟨rfl, u, hfind, by omega⟩

/-- C2 counterexample: when the credit lookup throws (a fault the handler
catches and deliberately ignores, summary.ts lines 100-103), the generate
handler proceeds with no passed balance check and the transaction decrements
the stored balance of a zero-credit user to -1 — so the stored balance can go
negative, the decrement is not floored at 0, and a decrement can occur without
a passed balance check. -/
theorem C2_counterexample :
    ((generate1 ⟨[⟨"u1".toList, "e".toList, [], [], [], 0⟩], []⟩
        "u1".toList "hello".toList ⟨"T".toList, "v".toList, []⟩
        (Except.ok "KEY POINTS:\n- a\n\nSUMMARY:\nS".toList)
        ⟨false, true, false⟩ "s1".toList).2.users.map User.credits) = [-1] ∧
    ¬ (0 : Int) ≤ -1 := by
  refine ⟨by decide, by decide⟩

/-- C2 amended: provided the credit lookup does not fail (and user ids are
unique), both generate handlers preserve nonnegativity of every stored
balance: the decrement subtracts exactly 1 and runs only after the balance
check has seen at least one credit, so `credits - 1 ≥ 0` (the floor at 0 in
the source applies only to the reported `creditsRemaining`, not to the stored
decrement). -/
theorem C2_amended_no_negative_balance
    (db : Db) (uid c : Str) (m : Metadata) (api : Except Str Str)
    (faults : DbFaults) (nid : Str) (vurl2 t2 ttl2 : Str) (api2 : Except Str Str)
    (hf : faults.creditLookupFails = false)
    (hids : (db.users.map User.id).Nodup)
    (hnn : ∀ w ∈ db.users, 0 ≤ w.credits) :
    (∀ w ∈ (generate1 db uid c m api faults nid).2.users, 0 ≤ w.credits) ∧
    (∀ w ∈ (generate2 db uid vurl2 t2 ttl2 api2).2.users, 0 ≤ w.credits) := by
  constructor
  · rcases generate1_users_cases db uid c m api faults nid with h | ⟨h, hor⟩
    · rw [h]; exact hnn
    · rcases hor with hcl | ⟨u, hu, hpos⟩
      · rw [hf] at hcl; cases hcl
      · rw [h]; exact decCredits_nonneg hids hu hpos hnn
  · rcases generate2_users_cases db uid vurl2 t2 ttl2 api2 with h | ⟨h, u, hu, hpos⟩
    · rw [h]; exact hnn
    · rw [h]; exact decCredits_nonneg hids hu hpos hnn

theorem C2_amended_no_negative_balance_witness :
    (∀ w ∈ (generate1 ⟨[⟨"u1".toList, "e".toList, [], [], [], 1⟩], []⟩
        "u1".toList "hello".toList ⟨"T".toList, "v".toList, []⟩
        (Except.ok "KEY POINTS:\n- a\n\nSUMMARY:\nS".toList)
        noFaults "s1".toList).2.users, 0 ≤ w.credits) ∧
    (∀ w ∈ (generate2 ⟨[⟨"u1".toList, "e".toList, [], [], [], 1⟩], []⟩
        "u1".toList "url".toList "hello".toList "T".toList
        (Except.ok "x".toList)).2.users, 0 ≤ w.credits) :=
  C2_amended_no_negative_balance
    ⟨[⟨"u1".toList, "e".toList, [], [], [], 1⟩], []⟩
    "u1".toList "hello".toList ⟨"T".toList, "v".toList, []⟩
    (Except.ok "KEY POINTS:\n- a\n\nSUMMARY:\nS".toList) noFaults "s1".toList
    "url".toList "hello".toList "T".toList (Except.ok "x".toList)
    (by decide) (by decide) (by decide)

/-- C4: ownership isolation.  For a summary id owned entirely by user `b` and a
distinct caller `a`, the `GET /:id` and `DELETE /:id` responses for that id are
equal to the responses for an id that exists nowhere in the store — a plain
404-style not-found, never the record and never a distinct permission-denied
signal — and the delete leaves the store unchanged. -/
theorem C4_ownership_isolation (db : Db) (a b sid sid2 : Str)
    (hab : a ≠ b)
    (hown : ∀ s ∈ db.summaries, s.id = sid → s.userId = b)
    (hmiss : ∀ s ∈ db.summaries, s.id ≠ sid2) :
    getById db a sid = GetResp.notFound ∧
    getById db a sid2 = GetResp.notFound ∧
    getById db a sid = getById db a sid2 ∧
    deleteById db a sid = (false, db) ∧
    deleteById db a sid2 = (false, db) ∧
    deleteById db a sid = deleteById db a sid2 := by
  have h1 : db.summaries.find? (fun s => s.id == sid && s.userId == a) = none := by
    apply List.find?_eq_none.mpr
    intro s hs hp
    simp only [Bool.and_eq_true, beq_iff_eq] at hp
    exact hab ((hown s hs hp.1).symm.trans hp.2).symm
  have h2 : db.summaries.find? (fun s => s.id == sid2 && s.userId == a) = none := by
    apply List.find?_eq_none.mpr
    intro s hs hp
    simp only [Bool.and_eq_true, beq_iff_eq] at hp
    exact hmiss s hs hp.1
  refine ⟨?_, ?_, ?_, ?_, ?_, ?_⟩ <;>
    simp [getById, deleteById, h1, h2]

theorem C4_ownership_isolation_witness :
    getById ⟨[], [⟨"s1".toList, "b".toList, "u".toList, "x".toList, []⟩]⟩
        "a".toList "s1".toList = GetResp.notFound ∧
    getById ⟨[], [⟨"s1".toList, "b".toList, "u".toList, "x".toList, []⟩]⟩
        "a".toList "zz".toList = GetResp.notFound ∧
    getById ⟨[], [⟨"s1".toList, "b".toList, "u".toList, "x".toList, []⟩]⟩
        "a".toList "s1".toList =
      getById ⟨[], [⟨"s1".toList, "b".toList, "u".toList, "x".toList, []⟩]⟩
        "a".toList "zz".toList ∧
    deleteById ⟨[], [⟨"s1".toList, "b".toList, "u".toList, "x".toList, []⟩]⟩
        "a".toList "s1".toList =
      (false, ⟨[], [⟨"s1".toList, "b".toList, "u".toList, "x".toList, []⟩]⟩) ∧
    deleteById ⟨[], [⟨"s1".toList, "b".toList, "u".toList, "x".toList, []⟩]⟩
        "a".toList "zz".toList =
      (false, ⟨[], [⟨"s1".toList, "b".toList, "u".toList, "x".toList, []⟩]⟩) ∧
    deleteById ⟨[], [⟨"s1".toList, "b".toList, "u".toList, "x".toList, []⟩]⟩
        "a".toList "s1".toList =
      deleteById ⟨[], [⟨"s1".toList, "b".toList, "u".toList, "x".toList, []⟩]⟩
        "a".toList "zz".toList :=
  C4_ownership_isolation ⟨[], [⟨"s1".toList, "b".toList, "u".toList, "x".toList, []⟩]⟩
    "a".toList "b".toList "s1".toList "zz".toList
    (by decide) (by decide) (by decide)

/-- C3 counterexample: a summary whose key points contain no dash and whose
title contains no newline — but whose full summary carries a trailing space —
does not survive the flatten/parse round trip: `"S "` is written via the save
handler and read back as `"S"` because the parser trims the captured text. -/
theorem C3_counterexample :
    getById (saveHandler ⟨[], []⟩ "u".toList "v".toList "T".toList ["p".toList]
        "S ".toList [] "s1".toList).2 "u".toList "s1".toList =
      GetResp.found "s1".toList ⟨"T".toList, ["p".toList], "S".toList⟩
        "https://www.youtube.com/watch?v=v".toList ∧
    "S".toList ≠ "S ".toList := by
  refine ⟨by decide, by decide⟩

/-- C3 amended: the round trip holds for summaries whose title, key points and
full summary are trim-stable (no leading or trailing `String.prototype.trim`
whitespace), whose title contains no LineTerminator (LF, CR, LS, PS — the
characters the title regex `.` cannot cross) and does not contain the
`Key Points:` marker (case-insensitively), and whose key points are nonempty,
dash-free and contain no blank line: writing via the save handler and reading
back via `GET /:id` reproduces the same title, key-points list, and full
summary. -/
theorem C3_amended_round_trip (db : Db) (uid videoId T : Str) (P : List Str)
    (F sourceUrl nid : Str)
    (hvid : videoId ≠ []) (hTne : T ≠ []) (hFne : F ≠ [])
    (hTt : trim T = T) (hTlt : ∀ c ∈ T, isLineTerm c = false)
    (hTm : ¬ kpMarkerCI <:+: T.map Char.toLower)
    (hP : ∀ p ∈ P, trim p = p ∧ p ≠ [] ∧ '-' ∉ p ∧ ¬ nnSep <:+: p)
    (hF : trim F = F)
    (hfresh : ∀ s ∈ db.summaries, s.id ≠ nid) :
    getById (saveHandler db uid videoId T P F sourceUrl nid).2 uid nid =
      GetResp.found nid ⟨T, P, F⟩
        (jsOr sourceUrl ("https://www.youtube.com/watch?v=".toList ++ videoId)) := by
  rw [saveHandler, if_neg (by simp [hvid, hTne, hFne])]
  unfold getById
  have h1 : db.summaries.find? (fun s => s.id == nid && s.userId == uid) = none := by
    apply List.find?_eq_none.mpr
    intro s hs hp
    simp only [Bool.and_eq_true, beq_iff_eq] at hp
    exact hfresh s hs hp.1
  simp [List.find?_append, h1, List.find?_cons,
    parseStored_flatten hTt hTlt hTm hP hF]

theorem C3_amended_round_trip_witness :
    getById (saveHandler ⟨[], []⟩ "u".toList "v".toList "My Title".toList
        ["p one".toList, "p two".toList] "Full text.".toList [] "s1".toList).2
        "u".toList "s1".toList =
      GetResp.found "s1".toList
        ⟨"My Title".toList, ["p one".toList, "p two".toList], "Full text.".toList⟩
        (jsOr [] ("https://www.youtube.com/watch?v=".toList ++ "v".toList)) :=
  C3_amended_round_trip ⟨[], []⟩ "u".toList "v".toList "My Title".toList
    ["p one".toList, "p two".toList] "Full text.".toList [] "s1".toList
    (by decide) (by decide) (by decide) (by decide) (by decide) (by decide)
    (by decide) (by decide) (by decide)

/-- On a cache hit the first-revision generate handler returns the re-parsed
cached blob and leaves the store untouched, for every value of the Summarizer
parameter and with no credit lookup or decrement. -/
theorem generate1_cache_hit (db : Db) (uid c : Str) (m : Metadata)
    (api : Except Str Str) (faults : DbFaults) (nid : Str) (s0 : Summary)
    (hf : faults.cacheLookupFails = false) (hc : c ≠ []) (hv : m.videoId ≠ [])
    (hhit : findSummaryByUrl db.summaries (videoUrlOf m) = some s0) :
    generate1 db uid c m api faults nid =
      (GenResp.cacheHit (parseCacheHit m.title s0.summary), db) := by
  simp [generate1, hc, hv, hf, hhit]

/-- C5 counterexample: two identical generate requests for the same video are
answered with different structured content.  The metadata title `"T "` carries
a trailing space; the first request returns it verbatim from the Summarizer
result while the second request (a cache hit) returns the blob's first line
trimmed, so the titles differ — and the first request, not the second, charged
a credit. -/
theorem C5_counterexample :
    (generate1 ⟨[⟨"u1".toList, "e".toList, [], [], [], 5⟩], []⟩
        "u1".toList "hello".toList ⟨"T ".toList, "v".toList, "u".toList⟩
        (Except.ok "KEY POINTS:\n- a\n\nSUMMARY:\nS".toList)
        noFaults "s1".toList).1 =
      GenResp.generated ⟨"T ".toList, ["a".toList], "S".toList⟩ 4 ∧
    (generate1
        (generate1 ⟨[⟨"u1".toList, "e".toList, [], [], [], 5⟩], []⟩
          "u1".toList "hello".toList ⟨"T ".toList, "v".toList, "u".toList⟩
          (Except.ok "KEY POINTS:\n- a\n\nSUMMARY:\nS".toList)
          noFaults "s1".toList).2
        "u1".toList "hello".toList ⟨"T ".toList, "v".toList, "u".toList⟩
        (Except.ok "KEY POINTS:\n- a\n\nSUMMARY:\nS".toList)
        noFaults "s2".toList).1 =
      GenResp.cacheHit ⟨"T".toList, ["a".toList], "S".toList⟩ ∧
    (⟨"T ".toList, ["a".toList], "S".toList⟩ : Parsed) ≠
      ⟨"T".toList, ["a".toList], "S".toList⟩ := by
  refine ⟨by decide, by decide, by decide⟩

/-- C5 amended.  Part 1: whenever a stored summary exists for the requested
video (and the cache lookup does not fault), the generate handler returns the
re-parsed cached blob directly and performs no credit check, no decrement and
no Summarizer call: the store is returned unchanged and the response is the
same for every value of the Summarizer parameter.  Part 2: when the first
request generates a result satisfying the round-trip conditions of the storage
encoding (trim-stable marker-free title without LineTerminators, nonempty
trim-stable dash-free blank-line-free key points, trim-stable nonempty full
summary — trim-stable meaning stable under the full `String.prototype.trim`
whitespace set), a
second request for the same video returns identical structured content from
the cache and leaves the store — including the credit balance — unchanged, so
credit is charged exactly once across the two requests. -/
theorem C5_amended_cache_idempotent :
    (∀ db uid c m api faults nid s0,
      faults.cacheLookupFails = false → c ≠ [] → m.videoId ≠ [] →
      findSummaryByUrl db.summaries (videoUrlOf m) = some s0 →
      generate1 db uid c m api faults nid =
        (GenResp.cacheHit (parseCacheHit m.title s0.summary), db)) ∧
    (∀ db uid c m api nid (u : User) T P F,
      c ≠ [] → m.videoId ≠ [] →
      findSummaryByUrl db.summaries (videoUrlOf m) = none →
      findUser db.users uid = some u → 1 ≤ u.credits →
      generateSummary c m.title api = Except.ok ⟨T, P, F⟩ →
      trim T = T → (∀ c2 ∈ T, isLineTerm c2 = false) →
      ¬ kpMarkerCI <:+: T.map Char.toLower →
      (∀ p ∈ P, trim p = p ∧ p ≠ [] ∧ '-' ∉ p ∧ ¬ nnSep <:+: p) →
      trim F = F → F ≠ [] →
      generate1 db uid c m api noFaults nid =
        (GenResp.generated ⟨T, P, F⟩ (max 0 (u.credits - 1)),
          ⟨decCredits db.users uid,
            db.summaries ++ [⟨nid, uid, videoUrlOf m, flatten T P F, c⟩]⟩) ∧
      (∀ api2 nid2,
        generate1 ⟨decCredits db.users uid,
            db.summaries ++ [⟨nid, uid, videoUrlOf m, flatten T P F, c⟩]⟩
          uid c m api2 noFaults nid2 =
        (GenResp.cacheHit ⟨T, P, F⟩,
          ⟨decCredits db.users uid,
            db.summaries ++ [⟨nid, uid, videoUrlOf m, flatten T P F, c⟩]⟩))) := by
  constructor
  · intro db uid c m api faults nid s0 hf hc hv hhit
    exact generate1_cache_hit db uid c m api faults nid s0 hf hc hv hhit
  · intro db uid c m api nid u T P F hc hv hmiss hu hcr hgen hTt hTlt hTm hP hF hFne
    constructor
    · have hlt : ¬ (u.credits < 1) := by omega
      simp [generate1, hc, hv, hmiss, hu, hlt, noFaults, hgen, hFne]
    · intro api2 nid2
      have hhit1 : findSummaryByUrl
          (db.summaries ++ [⟨nid, uid, videoUrlOf m, flatten T P F, c⟩])
          (videoUrlOf m) =
          some ⟨nid, uid, videoUrlOf m, flatten T P F, c⟩ := by
        rw [findSummaryByUrl, List.find?_append]
        rw [show db.summaries.find? (fun s => s.videoUrl == videoUrlOf m) = none from hmiss]
        simp
      have h := generate1_cache_hit
        ⟨decCredits db.users uid,
          db.summaries ++ [⟨nid, uid, videoUrlOf m, flatten T P F, c⟩]⟩
        uid c m api2 noFaults nid2
        ⟨nid, uid, videoUrlOf m, flatten T P F, c⟩ rfl hc hv hhit1
      rw [h, show parseCacheHit m.title (flatten T P F) = ⟨T, P, F⟩ from
        parseCacheHit_flatten m.title hTt hTlt hTm hP hF]

theorem C5_amended_cache_idempotent_witness :
    generate1 ⟨[⟨"u1".toList, "e".toList, [], [], [], 5⟩],
        [⟨"s0".toList, "u2".toList, "https://www.youtube.com/watch?v=v".toList,
          flatten "T".toList ["a".toList] "S".toList, []⟩]⟩
      "u1".toList "hello".toList ⟨"X".toList, "v".toList, []⟩
      (Except.ok "ignored".toList) noFaults "s9".toList =
      (GenResp.cacheHit (parseCacheHit "X".toList
        (flatten "T".toList ["a".toList] "S".toList)),
        ⟨[⟨"u1".toList, "e".toList, [], [], [], 5⟩],
          [⟨"s0".toList, "u2".toList, "https://www.youtube.com/watch?v=v".toList,
            flatten "T".toList ["a".toList] "S".toList, []⟩]⟩) ∧
    (generate1 ⟨[⟨"u1".toList, "e".toList, [], [], [], 5⟩], []⟩
        "u1".toList "hello".toList ⟨"T".toList, "v".toList, "u".toList⟩
        (Except.ok "KEY POINTS:\n- a\n\nSUMMARY:\nS".toList) noFaults "s1".toList =
      (GenResp.generated ⟨"T".toList, ["a".toList], "S".toList⟩
          (max 0 ((5 : Int) - 1)),
        ⟨decCredits [⟨"u1".toList, "e".toList, [], [], [], 5⟩] "u1".toList,
          [] ++ [⟨"s1".toList, "u1".toList,
            videoUrlOf ⟨"T".toList, "v".toList, "u".toList⟩,
            flatten "T".toList ["a".toList] "S".toList, "hello".toList⟩]⟩) ∧
      (∀ api2 nid2,
        generate1 ⟨decCredits [⟨"u1".toList, "e".toList, [], [], [], 5⟩] "u1".toList,
            [] ++ [⟨"s1".toList, "u1".toList,
              videoUrlOf ⟨"T".toList, "v".toList, "u".toList⟩,
              flatten "T".toList ["a".toList] "S".toList, "hello".toList⟩]⟩
          "u1".toList "hello".toList ⟨"T".toList, "v".toList, "u".toList⟩
          api2 noFaults nid2 =
        (GenResp.cacheHit ⟨"T".toList, ["a".toList], "S".toList⟩,
          ⟨decCredits [⟨"u1".toList, "e".toList, [], [], [], 5⟩] "u1".toList,
            [] ++ [⟨"s1".toList, "u1".toList,
              videoUrlOf ⟨"T".toList, "v".toList, "u".toList⟩,
              flatten "T".toList ["a".toList] "S".toList, "hello".toList⟩]⟩))) :=
  ⟨C5_amended_cache_idempotent.1
      ⟨[⟨"u1".toList, "e".toList, [], [], [], 5⟩],
        [⟨"s0".toList, "u2".toList, "https://www.youtube.com/watch?v=v".toList,
          flatten "T".toList ["a".toList] "S".toList, []⟩]⟩
      "u1".toList "hello".toList ⟨"X".toList, "v".toList, []⟩
      (Except.ok "ignored".toList) noFaults "s9".toList
      ⟨"s0".toList, "u2".toList, "https://www.youtube.com/watch?v=v".toList,
        flatten "T".toList ["a".toList] "S".toList, []⟩
      rfl (by decide) (by decide) (by decide),
    C5_amended_cache_idempotent.2
      ⟨[⟨"u1".toList, "e".toList, [], [], [], 5⟩], []⟩
      "u1".toList "hello".toList ⟨"T".toList, "v".toList, "u".toList⟩
      (Except.ok "KEY POINTS:\n- a\n\nSUMMARY:\nS".toList) "s1".toList
      ⟨"u1".toList, "e".toList, [], [], [], 5⟩
      "T".toList ["a".toList] "S".toList
      (by decide) (by decide) (by decide) (by decide) (by decide) (by decide)
      (by decide) (by decide) (by decide) (by decide) (by decide) (by decide)⟩

/-- `find?` by id through an id-preserving conditional update. -/
theorem find?_map_update (users : List User) (uid : Str) (f : User → User)
    (hf : ∀ u, (f u).id = u.id) (xid : Str) :
    ((users.map fun u => if u.id = uid then f u else u).find? (fun u => u.id == xid)) =
      (users.find? (fun u => u.id == xid)).map (fun u => if u.id = uid then f u else u) := by
  induction users with
  | nil => rfl
  | cons v rest ih =>
    rw [List.map_cons, List.find?_cons, List.find?_cons]
    have hpred : ((if v.id = uid then f v else v).id == xid) = (v.id == xid) := by
      by_cases hv : v.id = uid
      · rw [if_pos hv, hf]
      · rw [if_neg hv]
    rw [hpred]
    cases hb : (v.id == xid) with
    | false => exact ih
    | true => rfl

/-- C8 counterexample: the directory sync does not update only the name, image
and provider fields — the stored email is overwritten too.  A user stored with
email `"old"` authenticating with a credential carrying email `"new"` ends up
with stored email `"new"`. -/
theorem C8_counterexample :
    (authSync ⟨[⟨"u1".toList, "old".toList, "n".toList, "i".toList, "p".toList, 7⟩], []⟩
        ⟨"u1".toList, "new".toList, [], [], []⟩).users.map User.email =
      ["new".toList] ∧
    "new".toList ≠ "old".toList := by
  refine ⟨by decide, by decide⟩

/-- C8 amended: in both revisions the sync upserts the user record keyed by
the verified id.  When a record exists it updates the profile fields — email
(always), name and image (only when supplied) — while the credit balance keeps
its stored value, other users are untouched and no summary rows change; the
provider falls back to `"oauth"` in the first revision and to the stored
provider before `"oauth"` in the second.  When no record exists both
revisions create one with the credential fields and the default grant of 10
credits, leaving everything else unchanged. -/
theorem C8_amended_upsert (db : Db) (v : Verified) :
    (∀ u0, findUser db.users v.id = some u0 →
      findUser (authSync db v).users v.id =
        some ⟨u0.id, v.email,
          (if v.fullName = [] then u0.name else v.fullName),
          (if v.avatarUrl = [] then u0.imageUrl else v.avatarUrl),
          jsOr v.provider "oauth".toList, u0.credits⟩ ∧
      (∀ xid, xid ≠ v.id → findUser (authSync db v).users xid = findUser db.users xid) ∧
      (authSync db v).summaries = db.summaries) ∧
    (findUser db.users v.id = none →
      findUser (authSync db v).users v.id =
        some ⟨v.id, v.email, v.fullName, v.avatarUrl,
          jsOr v.provider "oauth".toList, 10⟩ ∧
      (∀ xid, xid ≠ v.id → findUser (authSync db v).users xid = findUser db.users xid) ∧
      (authSync db v).summaries = db.summaries) ∧
    (∀ u0, findUser db.users v.id = some u0 →
      findUser (authSync2 db v).users v.id =
        some ⟨u0.id, v.email,
          (if v.fullName = [] then u0.name else v.fullName),
          (if v.avatarUrl = [] then u0.imageUrl else v.avatarUrl),
          jsOr v.provider (jsOr u0.provider "oauth".toList), u0.credits⟩ ∧
      (∀ xid, xid ≠ v.id → findUser (authSync2 db v).users xid = findUser db.users xid) ∧
      (authSync2 db v).summaries = db.summaries) ∧
    (findUser db.users v.id = none →
      findUser (authSync2 db v).users v.id =
        some ⟨v.id, v.email, v.fullName, v.avatarUrl,
          jsOr v.provider "oauth".toList, 10⟩ ∧
      (∀ xid, xid ≠ v.id → findUser (authSync2 db v).users xid = findUser db.users xid) ∧
      (authSync2 db v).summaries = db.summaries) := by
  refine ⟨?_, ?_, ?_, ?_⟩
  · intro u0 hfind
    have hsync : authSync db v =
        { db with users := db.users.map fun u =>
            if u.id = v.id then
              { u with email := v.email,
                       name := if v.fullName = [] then u.name else v.fullName,
                       imageUrl := if v.avatarUrl = [] then u.imageUrl else v.avatarUrl,
                       provider := jsOr v.provider "oauth".toList }
            else u } := by
      rw [authSync, hfind]
    have hid0 : u0.id = v.id := findUser_id hfind
    have hmap := find?_map_update db.users v.id
      (fun u => { u with email := v.email,
                         name := if v.fullName = [] then u.name else v.fullName,
                         imageUrl := if v.avatarUrl = [] then u.imageUrl else v.avatarUrl,
                         provider := jsOr v.provider "oauth".toList })
      (fun u => rfl)
    refine ⟨?_, ?_, by rw [hsync]⟩
    · rw [hsync]
      show (db.users.map fun u => if u.id = v.id then _ else u).find?
          (fun u => u.id == v.id) = _
      rw [hmap v.id]
      rw [show findUser db.users v.id = db.users.find? (fun u => u.id == v.id) from rfl]
        at hfind
      rw [hfind]
      simp [hid0]
    · intro xid hx
      rw [hsync]
      show (db.users.map fun u => if u.id = v.id then _ else u).find?
          (fun u => u.id == xid) = _
      rw [hmap xid]
      rw [show findUser db.users xid = db.users.find? (fun u => u.id == xid) from rfl]
      cases hb : db.users.find? (fun u => u.id == xid) with
      | none => rfl
      | some u1 =>
        have hid1 : u1.id ≠ v.id := by
          rw [show u1.id = xid by simpa using List.find?_some hb]
          exact hx
        simp [hid1]
  · intro hnone
    have hsync : authSync db v =
        { db with users := db.users ++
            [⟨v.id, v.email, v.fullName, v.avatarUrl,
              jsOr v.provider "oauth".toList, 10⟩] } := by
      rw [authSync, hnone]
    refine ⟨?_, ?_, by rw [hsync]⟩
    · rw [hsync]
      unfold findUser
      rw [List.find?_append,
        show db.users.find? (fun u => u.id == v.id) = none from hnone]
      simp
    · intro xid hx
      rw [hsync]
      unfold findUser
      rw [List.find?_append]
      cases hb : db.users.find? (fun u => u.id == xid) with
      | some u1 => rfl
      | none =>
        have : ((⟨v.id, v.email, v.fullName, v.avatarUrl,
            jsOr v.provider "oauth".toList, 10⟩ : User).id == xid) = false := by
          simp
          exact fun h => hx h.symm
        simp [List.find?_cons, this]
  · intro u0 hfind
    have hsync : authSync2 db v =
        { db with users := db.users.map fun u =>
            if u.id = v.id then
              { u with email := v.email,
                       name := if v.fullName = [] then u.name else v.fullName,
                       imageUrl := if v.avatarUrl = [] then u.imageUrl else v.avatarUrl,
                       provider := jsOr v.provider (jsOr u.provider "oauth".toList) }
            else u } := by
      rw [authSync2, hfind]
    have hid0 : u0.id = v.id := findUser_id hfind
    have hmap := find?_map_update db.users v.id
      (fun u => { u with email := v.email,
                         name := if v.fullName = [] then u.name else v.fullName,
                         imageUrl := if v.avatarUrl = [] then u.imageUrl else v.avatarUrl,
                         provider := jsOr v.provider (jsOr u.provider "oauth".toList) })
      (fun u => rfl)
    refine ⟨?_, ?_, by rw [hsync]⟩
    · rw [hsync]
      show (db.users.map fun u => if u.id = v.id then _ else u).find?
          (fun u => u.id == v.id) = _
      rw [hmap v.id]
      rw [show findUser db.users v.id = db.users.find? (fun u => u.id == v.id) from rfl]
        at hfind
      rw [hfind]
      simp [hid0]
    · intro xid hx
      rw [hsync]
      show (db.users.map fun u => if u.id = v.id then _ else u).find?
          (fun u => u.id == xid) = _
      rw [hmap xid]
      rw [show findUser db.users xid = db.users.find? (fun u => u.id == xid) from rfl]
      cases hb : db.users.find? (fun u => u.id == xid) with
      | none => rfl
      | some u1 =>
        have hid1 : u1.id ≠ v.id := by
          rw [show u1.id = xid by simpa using List.find?_some hb]
          exact hx
        simp [hid1]
  · intro hnone
    have hsync : authSync2 db v =
        { db with users := db.users ++
            [⟨v.id, v.email, v.fullName, v.avatarUrl,
              jsOr v.provider "oauth".toList, 10⟩] } := by
      rw [authSync2, hnone]
    refine ⟨?_, ?_, by rw [hsync]⟩
    · rw [hsync]
      unfold findUser
      rw [List.find?_append,
        show db.users.find? (fun u => u.id == v.id) = none from hnone]
      simp
    · intro xid hx
      rw [hsync]
      unfold findUser
      rw [List.find?_append]
      cases hb : db.users.find? (fun u => u.id == xid) with
      | some u1 => rfl
      | none =>
        have : ((⟨v.id, v.email, v.fullName, v.avatarUrl,
            jsOr v.provider "oauth".toList, 10⟩ : User).id == xid) = false := by
          simp
          exact fun h => hx h.symm
        simp [List.find?_cons, this]

theorem C8_amended_upsert_witness :
    (findUser (authSync
        ⟨[⟨"u1".toList, "old".toList, "n".toList, "i".toList, "p".toList, 7⟩], []⟩
        ⟨"u1".toList, "new".toList, [], [], []⟩).users "u1".toList =
      some ⟨"u1".toList, "new".toList,
        (if ([] : Str) = [] then "n".toList else []),
        (if ([] : Str) = [] then "i".toList else []),
        jsOr [] "oauth".toList, 7⟩) ∧
    (findUser (authSync ⟨[], []⟩ ⟨"u2".toList, "e".toList, "N".toList, "A".toList,
        "google".toList⟩).users "u2".toList =
      some ⟨"u2".toList, "e".toList, "N".toList, "A".toList,
        jsOr "google".toList "oauth".toList, 10⟩) ∧
    (findUser (authSync2
        ⟨[⟨"u1".toList, "old".toList, "n".toList, "i".toList, "supabase".toList, 7⟩], []⟩
        ⟨"u1".toList, "new".toList, [], [], []⟩).users "u1".toList =
      some ⟨"u1".toList, "new".toList,
        (if ([] : Str) = [] then "n".toList else []),
        (if ([] : Str) = [] then "i".toList else []),
        jsOr [] (jsOr "supabase".toList "oauth".toList), 7⟩) ∧
    (findUser (authSync2 ⟨[], []⟩ ⟨"u2".toList, "e".toList, "N".toList, "A".toList,
        "google".toList⟩).users "u2".toList =
      some ⟨"u2".toList, "e".toList, "N".toList, "A".toList,
        jsOr "google".toList "oauth".toList, 10⟩) :=
  ⟨((C8_amended_upsert
      ⟨[⟨"u1".toList, "old".toList, "n".toList, "i".toList, "p".toList, 7⟩], []⟩
      ⟨"u1".toList, "new".toList, [], [], []⟩).1
      ⟨"u1".toList, "old".toList, "n".toList, "i".toList, "p".toList, 7⟩
      (by decide)).1,
    ((C8_amended_upsert ⟨[], []⟩ ⟨"u2".toList, "e".toList, "N".toList, "A".toList,
      "google".toList⟩).2.1
      (by decide)).1,
    ((C8_amended_upsert
      ⟨[⟨"u1".toList, "old".toList, "n".toList, "i".toList, "supabase".toList, 7⟩], []⟩
      ⟨"u1".toList, "new".toList, [], [], []⟩).2.2.1
      ⟨"u1".toList, "old".toList, "n".toList, "i".toList, "supabase".toList, 7⟩
      (by decide)).1,
    ((C8_amended_upsert ⟨[], []⟩ ⟨"u2".toList, "e".toList, "N".toList, "A".toList,
      "google".toList⟩).2.2.2
      (by decide)).1⟩

/-- Whether the middleware invoked the next stage. -/
def nextCalled : AuthResult → Bool
  | AuthResult.proceed _ _ _ _ => true
  | AuthResult.reject _ => false

/-- C9 counterexample: with a valid credential but a failing directory sync,
the auth middleware does not degrade gracefully — the catch block answers 500
and the next stage is never invoked, contradicting the claim that a sync
failure must not block authentication. -/
theorem C9_counterexample :
    nextCalled (authMiddleware ⟨[], []⟩ true
      (some ⟨"u".toList, "e".toList, "N".toList, "A".toList, []⟩) true).1 = false ∧
    (authMiddleware ⟨[], []⟩ true
      (some ⟨"u".toList, "e".toList, "N".toList, "A".toList, []⟩) true).1 =
      AuthResult.reject 500 := by
  refine ⟨by decide, by decide⟩

/-- C9 amended: a directory-sync failure blocks the request — the middleware
catches the store error, responds 500 and does not invoke the next stage,
leaving the store unchanged; only with a healthy store does it sync the
directory and proceed with the identity-provider fields attached. -/
theorem C9_amended_sync_failure_blocks (db : Db) (v : Verified) :
    (authMiddleware db true (some v) true = (AuthResult.reject 500, db) ∧
      nextCalled (authMiddleware db true (some v) true).1 = false) ∧
    (authMiddleware db true (some v) false =
        (AuthResult.proceed v.id v.email v.fullName v.avatarUrl, authSync db v) ∧
      nextCalled (authMiddleware db true (some v) false).1 = true) :=
  ⟨⟨rfl, rfl⟩, ⟨rfl, rfl⟩⟩
